import Mathlib

/-!
Shallow embedding, in Lean 4, of the data-transformation core of the
`bta-pbi-charts` repository (Power BI custom visuals), together with proofs
about the claims of its specification.

Modelling conventions, used throughout:

* JavaScript numbers are modelled as rationals (`ℚ`); `NaN` is modelled
  explicitly where the source distinguishes it (as `Option ℚ`, with `none`
  standing for `NaN`).  Infinities produced by the host never reach the
  embedded code paths (every numeric cell of a data view is finite or null),
  so `±Infinity` sentinels used internally by the source (e.g. `minValue =
  Infinity` before a fold) are modelled as `Option ℚ` with `none` for the
  sentinel.
* JavaScript strings are Lean `String`s.  `String.prototype.localeCompare`
  is modelled as code-point order, and `toLowerCase`/`trim` are implemented
  over the character list so that they evaluate by `decide`.
* A JS `Map` is an association list in insertion order: `set` of an existing
  key updates it in place, `set` of a fresh key appends.  A JS `Set` of
  strings is a duplicate-free list in insertion order.
* `Array.prototype.sort` (stable in modern JS) is modelled by
  `List.insertionSort`, which is stable; every comparator used by the source
  is total on the values it sorts, so any stable sort gives the same result.
-/

/-! ## JS-style primitives -/

/-- Raw cell value of a data view, as the loosely-typed host hands it over:
`null`/`undefined` (conflated, the source treats them alike), a boolean, a
finite number, `NaN`, a string, or a `Date` whose time value is `ms`
milliseconds since the epoch. -/
inductive JSVal where
  | vnull
  | vbool (b : Bool)
  | vnum (q : ℚ)
  | vnan
  | vstr (s : String)
  | vdate (ms : Int)
deriving DecidableEq, Repr

/-- Character test for JS `\s` (the whitespace characters that matter here). -/
def jsIsSpace (c : Char) : Bool :=
  c = ' ' || c = '\t' || c = '\n' || c = '\r'

/-- JS `String.prototype.trim`, implemented over the character list. -/
def jsTrim (s : String) : String :=
  String.mk (((s.toList.dropWhile jsIsSpace).reverse.dropWhile jsIsSpace).reverse)

/-- JS `String.prototype.toLowerCase` (ASCII case folding). -/
def jsToLower (s : String) : String :=
  String.mk (s.toList.map Char.toLower)

/-- Code-point comparison of strings, modelling `localeCompare` (see the
module conventions). -/
def strCmp (a b : String) : Ordering :=
  compare a.toList b.toList

/-- JS numeric-string parsing for `Number(string)`: after trimming, the empty
string is `0`; an optional sign followed by decimal digits with an optional
fractional part parses to that rational; anything else is `NaN` (`none`).
(Exotic forms — exponents, hex, `Infinity` — do not occur in the data this
repository transforms and are modelled as `NaN`.) -/
def parseDecimalDigits : List Char → Option Nat
  | [] => none
  | cs =>
    if cs.all Char.isDigit then
      some (cs.foldl (fun acc c => acc * 10 + (c.toNat - '0'.toNat)) 0)
    else none

/-- Unsigned decimal with optional fractional part, as a rational. -/
def parseUnsignedDecimal (cs : List Char) : Option ℚ :=
  match cs.span Char.isDigit with
  | (intPart, rest) =>
    match rest with
    | [] => (parseDecimalDigits intPart).map (fun n => (n : ℚ))
    | '.' :: frac =>
      match parseDecimalDigits intPart, parseDecimalDigits frac with
      | some n, some f => some ((n : ℚ) + (f : ℚ) / ((10 : ℚ) ^ frac.length))
      | _, _ => none
    | _ => none

/-- JS `Number(string)` (see `parseDecimalDigits` for scope). -/
def jsStringToNumber (s : String) : Option ℚ :=
  let t := (jsTrim s).toList
  match t with
  | [] => some 0
  | '-' :: rest => (parseUnsignedDecimal rest).map (fun q => -q)
  | '+' :: rest => parseUnsignedDecimal rest
  | _ => parseUnsignedDecimal t

/-- JS `Number(x)` coercion; `none` is `NaN`.  `Number(null) = 0`,
`Number(undefined) = NaN` — the source only coerces values it has not
distinguished from `null`, and treats the resulting `0`/`NaN` alike through
`|| 0`, so `vnull ↦ 0` is the faithful common model. -/
def jsToNumber : JSVal → Option ℚ
  | .vnull => some 0
  | .vbool b => some (if b then 1 else 0)
  | .vnum q => some q
  | .vnan => none
  | .vstr s => jsStringToNumber s
  | .vdate ms => some (ms : ℚ)

/-- JS `x || 0` applied to a coerced number: `NaN` and `0` are falsy and give
the fallback `0`; any other number is kept. -/
def jsOr0 : Option ℚ → ℚ
  | none => 0
  | some q => q

/-- JS `Map.prototype.get`. -/
def mapGet {α : Type} (m : List (String × α)) (k : String) : Option α :=
  (m.find? (fun p => p.1 = k)).map (fun p => p.2)

/-- JS `Map.prototype.set`: update in place, or append a fresh key. -/
def mapSet {α : Type} : List (String × α) → String → α → List (String × α)
  | [], k, v => [(k, v)]
  | (k', v') :: rest, k, v =>
    if k' = k then (k, v) :: rest else (k', v') :: mapSet rest k v

/-- JS `Set.prototype.add` on a string set in insertion order. -/
def setAdd (s : List String) (k : String) : List String :=
  if k ∈ s then s else s ++ [k]

/-! ## Shared formatters

The shared package's `formatDataValue`/`formatGroupValue` are referenced by
every transformer but their defining module is not among the provided
sources; they are modelled from the spec (§4.2). -/

/-- Modelled from the spec: `formatDataValue(raw, fallbackIndex)` from the
shared package (not under the provided sources) "converts any raw cell
(string/number/Date/null) to a display string; null/undefined becomes a
positional fallback label (`Entry N` style) when no literal exists". -/
def formatDataValue (raw : JSVal) (fallbackIndex : Nat) : String :=
  match raw with
  | .vnull => "Entry " ++ toString (fallbackIndex + 1)
  | .vbool b => if b then "True" else "False"
  | .vnum q => toString q
  | .vnan => "NaN"
  | .vstr s => s
  | .vdate ms => "Date(" ++ toString ms ++ ")"

/-- Modelled from the spec: `formatGroupValue(raw)` from the shared package
(not under the provided sources) "normalizes blank/null group values to a
literal `(Blank)` sentinel so grouping keys remain non-empty strings". -/
def formatGroupValue (raw : JSVal) : String :=
  match raw with
  | .vnull => "(Blank)"
  | _ =>
    let s := formatDataValue raw 0
    if jsTrim s = "" then "(Blank)" else s

/-! ## Hierarchical axis builder (HeatmapTransformer.ts lines 13-27, 164-198) -/

/-- `KEY_SEP = "\u001f"` — unit-separator used to join path parts into keys. -/
def keySep : String := String.singleton (Char.ofNat 31)

/-- One contiguous run of identical-prefix leaves at a hierarchy level
(`AxisSpan` in the source; both leaf indices inclusive). -/
structure AxisSpan where
  level : Nat
  startLeafIndex : Nat
  endLeafIndex : Nat
  label : String
  key : String
deriving DecidableEq, Repr

/-- `AxisHierarchy` of the source; `keyToPath` is a JS `Map`. -/
structure AxisHierarchy where
  depth : Nat
  leafKeys : List String
  leafPaths : List (List String)
  spansByLevel : List (List AxisSpan)
  keyToPath : List (String × List String)
deriving DecidableEq, Repr

/-- Joined prefix `(leafPaths[i] ?? []).slice(0, level + 1).join(KEY_SEP)` of
leaf `i` at `level`. -/
def prefixKeyAt (paths : List (List String)) (level i : Nat) : String :=
  String.intercalate keySep ((paths.getD i []).take (level + 1))

/-- Inner `while (j < leafPaths.length)` loop of
`buildAxisHierarchyFromLeafPaths`: advance `j` while the joined prefix at `j`
still equals `pfx`.  Written with explicit fuel (any `fuel ≥ paths.length - j`
reproduces the loop exactly) so that it evaluates by kernel reduction. -/
def spanRunEnd (paths : List (List String)) (level : Nat) (pfx : String) :
    Nat → Nat → Nat
  | 0, j => j
  | fuel + 1, j =>
    if j < paths.length then
      if prefixKeyAt paths level j = pfx then
        spanRunEnd paths level pfx fuel (j + 1)
      else j
    else j

/-- Outer `while (i < leafPaths.length)` loop of
`buildAxisHierarchyFromLeafPaths` at one `level`: emit one span per maximal
run of equal prefixes.  Fuel-indexed like `spanRunEnd`; `fuel = paths.length`
(used by `buildAxisHierarchyFromLeafPaths`) always suffices because every
iteration advances `i` by at least one. -/
def buildSpansFrom (paths : List (List String)) (level : Nat) :
    Nat → Nat → List AxisSpan
  | 0, _ => []
  | fuel + 1, i =>
    if i < paths.length then
      let prefixParts := (paths.getD i []).take (level + 1)
      let pfx := String.intercalate keySep prefixParts
      let label := prefixParts.getD level ""
      let j := spanRunEnd paths level pfx paths.length (i + 1)
      { level := level, startLeafIndex := i, endLeafIndex := j - 1,
        label := label, key := pfx } :: buildSpansFrom paths level fuel j
    else []

/-- `buildAxisHierarchyFromLeafPaths` (source lines 164-198): `depth` is the
maximum path length, `keyToPath` maps each leaf key to its path, and
`spansByLevel` holds the per-level span runs. -/
def buildAxisHierarchyFromLeafPaths (leafKeys : List String)
    (leafPaths : List (List String)) : AxisHierarchy :=
  let depth := leafPaths.foldl (fun m p => max m p.length) 0
  let keyToPath := (List.range leafKeys.length).foldl
    (fun m i => mapSet m (leafKeys.getD i "") (leafPaths.getD i [])) []
  let spansByLevel := (List.range depth).map
    (fun level => buildSpansFrom leafPaths level leafPaths.length 0)
  { depth := depth, leafKeys := leafKeys, leafPaths := leafPaths,
    spansByLevel := spansByLevel, keyToPath := keyToPath }

/-- `SpansCover spans i n` says the spans tile the index interval `[i, n)`
exactly, contiguously and in order: the first span starts at `i`, each span
is non-empty, each subsequent span starts right after its predecessor ends,
and the last span ends at `n - 1`. -/
def SpansCover : List AxisSpan → Nat → Nat → Prop
  | [], i, n => i = n
  | s :: rest, i, n =>
    s.startLeafIndex = i ∧ i ≤ s.endLeafIndex ∧
      SpansCover rest (s.endLeafIndex + 1) n

/-! Properties of the span builder. -/

theorem spanRunEnd_ge (paths : List (List String)) (level : Nat) (pfx : String) :
    ∀ fuel j, j ≤ spanRunEnd paths level pfx fuel j := by
  intro fuel
  induction fuel with
  | zero => intro j; simp [spanRunEnd]
  | succ fuel ih =>
    intro j
    simp only [spanRunEnd]
    split
    · split
      · exact le_trans (Nat.le_succ j) (ih (j + 1))
      · exact le_refl j
    · exact le_refl j

theorem spanRunEnd_le (paths : List (List String)) (level : Nat) (pfx : String) :
    ∀ fuel j, j ≤ paths.length → spanRunEnd paths level pfx fuel j ≤ paths.length := by
  intro fuel
  induction fuel with
  | zero => intro j hj; simpa [spanRunEnd] using hj
  | succ fuel ih =>
    intro j hj
    simp only [spanRunEnd]
    split
    · split
      · exact ih (j + 1) (by omega)
      · exact hj
    · exact hj

theorem buildSpansFrom_cover (paths : List (List String)) (level : Nat) :
    ∀ fuel i, i ≤ paths.length → paths.length ≤ fuel + i →
      SpansCover (buildSpansFrom paths level fuel i) i paths.length := by
  intro fuel
  induction fuel with
  | zero =>
    intro i hle hge
    have : i = paths.length := by omega
    simp [buildSpansFrom, SpansCover, this]
  | succ fuel ih =>
    intro i hle hge
    by_cases hi : i < paths.length
    · simp only [buildSpansFrom, if_pos hi]
      have hj1 : i + 1 ≤ spanRunEnd paths level
          (String.intercalate keySep ((paths.getD i []).take (level + 1)))
          paths.length (i + 1) :=
        spanRunEnd_ge paths level _ paths.length (i + 1)
      have hj2 : spanRunEnd paths level
          (String.intercalate keySep ((paths.getD i []).take (level + 1)))
          paths.length (i + 1) ≤ paths.length :=
        spanRunEnd_le paths level _ paths.length (i + 1) (by omega)
      refine ⟨rfl, ?_, ?_⟩
      · show i ≤ spanRunEnd paths level
            (String.intercalate keySep ((paths.getD i []).take (level + 1)))
            paths.length (i + 1) - 1
        omega
      · show SpansCover _ (spanRunEnd paths level
            (String.intercalate keySep ((paths.getD i []).take (level + 1)))
            paths.length (i + 1) - 1 + 1) _
        have hsub : spanRunEnd paths level
            (String.intercalate keySep ((paths.getD i []).take (level + 1)))
            paths.length (i + 1) - 1 + 1 =
            spanRunEnd paths level
              (String.intercalate keySep ((paths.getD i []).take (level + 1)))
              paths.length (i + 1) := by omega
        rw [hsub]
        exact ih _ hj2 (by omega)
    · simp only [buildSpansFrom, if_neg hi]
      have : i = paths.length := by omega
      simp [SpansCover, this]

/-- The left end of a covered interval never exceeds its right end. -/
theorem SpansCover.start_le :
    ∀ (spans : List AxisSpan) (i n : Nat), SpansCover spans i n → i ≤ n := by
  intro spans
  induction spans with
  | nil => intro i n h; simp [SpansCover] at h; omega
  | cons s rest ih =>
    intro i n h
    obtain ⟨hstart, hle, hrest⟩ := h
    have := ih _ _ hrest
    omega

/-- Every span of a tiling of `[i, n)` starts at or after `i`. -/
theorem SpansCover.le_start :
    ∀ (spans : List AxisSpan) (i n : Nat), SpansCover spans i n →
      ∀ s ∈ spans, i ≤ s.startLeafIndex := by
  intro spans
  induction spans with
  | nil => intro i n _ s hs; simp at hs
  | cons t rest ih =>
    intro i n h s hs
    obtain ⟨hstart, hle, hrest⟩ := h
    rcases List.mem_cons.mp hs with h1 | h1
    · subst h1; omega
    · have := ih _ _ hrest s h1
      omega

/-- From exact tiling: the sizes `endLeafIndex - startLeafIndex + 1` sum to
the width of the covered interval. -/
theorem SpansCover.sum_sizes :
    ∀ (spans : List AxisSpan) (i n : Nat), SpansCover spans i n →
      (spans.map (fun s => s.endLeafIndex - s.startLeafIndex + 1)).sum = n - i := by
  intro spans
  induction spans with
  | nil => intro i n h; simp [SpansCover] at h; simp [h]
  | cons s rest ih =>
    intro i n h
    obtain ⟨hstart, hle, hrest⟩ := h
    have hsum := ih (s.endLeafIndex + 1) n hrest
    have hin : s.endLeafIndex + 1 ≤ n := SpansCover.start_le _ _ _ hrest
    simp only [List.map_cons, List.sum_cons, hsum, hstart]
    omega

/-- From exact tiling: every index of the interval is covered by some span. -/
theorem SpansCover.covers :
    ∀ (spans : List AxisSpan) (i n : Nat), SpansCover spans i n →
      ∀ k, i ≤ k → k < n →
        ∃ s ∈ spans, s.startLeafIndex ≤ k ∧ k ≤ s.endLeafIndex := by
  intro spans
  induction spans with
  | nil => intro i n h k hk1 hk2; simp [SpansCover] at h; omega
  | cons s rest ih =>
    intro i n h k hk1 hk2
    obtain ⟨hstart, hle, hrest⟩ := h
    by_cases hk : k ≤ s.endLeafIndex
    · exact ⟨s, List.mem_cons_self _ _, by omega, hk⟩
    · obtain ⟨t, htmem, ht⟩ := ih (s.endLeafIndex + 1) n hrest k (by omega) hk2
      exact ⟨t, List.mem_cons_of_mem _ htmem, ht⟩

/-- From exact tiling: spans are strictly ordered, hence pairwise disjoint. -/
theorem SpansCover.pairwise_disjoint :
    ∀ (spans : List AxisSpan) (i n : Nat), SpansCover spans i n →
      List.Pairwise (fun a b => a.endLeafIndex < b.startLeafIndex) spans := by
  intro spans
  induction spans with
  | nil => intro i n _; exact List.Pairwise.nil
  | cons s rest ih =>
    intro i n h
    obtain ⟨hstart, hle, hrest⟩ := h
    refine List.Pairwise.cons ?_ (ih _ _ hrest)
    intro t htmem
    have := SpansCover.le_start _ _ _ hrest t htmem
    omega

/-- From exact tiling: every span is non-empty (`startLeafIndex ≤
endLeafIndex`). -/
theorem SpansCover.nonempty_spans :
    ∀ (spans : List AxisSpan) (i n : Nat), SpansCover spans i n →
      ∀ s ∈ spans, s.startLeafIndex ≤ s.endLeafIndex := by
  intro spans
  induction spans with
  | nil => intro i n _ s hs; simp at hs
  | cons t rest ih =>
    intro i n h s hs
    obtain ⟨hstart, hle, hrest⟩ := h
    rcases List.mem_cons.mp hs with h1 | h1
    · subst h1; omega
    · exact ih _ _ hrest s h1

/-- C1: for every axis hierarchy produced by `buildAxisHierarchyFromLeafPaths`
from parallel `leafKeys`/`leafPaths` arrays of equal length, at every level
`L < depth` the spans of `spansByLevel[L]` partition the leaf-index range
`[0, leafKeys.length)` exactly: they tile it contiguously in order
(`SpansCover`), cover every leaf index, are pairwise non-overlapping and
non-empty, and their sizes `endLeafIndex - startLeafIndex + 1` sum to
`leafKeys.length`. -/
theorem axis_spans_partition (leafKeys : List String)
    (leafPaths : List (List String))
    (hlen : leafKeys.length = leafPaths.length) :
    (buildAxisHierarchyFromLeafPaths leafKeys leafPaths).spansByLevel.length =
      (buildAxisHierarchyFromLeafPaths leafKeys leafPaths).depth ∧
    ∀ L, L < (buildAxisHierarchyFromLeafPaths leafKeys leafPaths).depth →
      ∃ sl, (buildAxisHierarchyFromLeafPaths leafKeys leafPaths).spansByLevel.get? L
          = some sl ∧
        SpansCover sl 0 leafKeys.length ∧
        (∀ k, k < leafKeys.length →
          ∃ s ∈ sl, s.startLeafIndex ≤ k ∧ k ≤ s.endLeafIndex) ∧
        List.Pairwise (fun a b => a.endLeafIndex < b.startLeafIndex) sl ∧
        (∀ s ∈ sl, s.startLeafIndex ≤ s.endLeafIndex) ∧
        (sl.map (fun s => s.endLeafIndex - s.startLeafIndex + 1)).sum =
          leafKeys.length := by
  constructor
  · simp [buildAxisHierarchyFromLeafPaths]
  · intro L hL
    refine ⟨buildSpansFrom leafPaths L leafPaths.length 0, ?_, ?_⟩
    · simp only [buildAxisHierarchyFromLeafPaths] at hL ⊢
      rw [List.get?_map, List.get?_range hL]
      rfl
    · have hcov : SpansCover (buildSpansFrom leafPaths L leafPaths.length 0) 0
          leafPaths.length :=
        buildSpansFrom_cover leafPaths L leafPaths.length 0 (Nat.zero_le _)
          (by omega)
      rw [hlen]
      refine ⟨hcov, ?_, ?_, ?_, ?_⟩
      · intro k hk
        exact SpansCover.covers _ _ _ hcov k (Nat.zero_le _) hk
      · exact SpansCover.pairwise_disjoint _ _ _ hcov
      · exact SpansCover.nonempty_spans _ _ _ hcov
      · simpa using SpansCover.sum_sizes _ _ _ hcov

/-- C1 witness: the theorem applied to the spec's concrete example, leaf
paths `[["2024","Q1"],["2024","Q2"],["2025","Q1"]]`. -/
theorem axis_spans_partition_witness :
    (["a", "b", "c"] : List String).length =
      ([["2024", "Q1"], ["2024", "Q2"], ["2025", "Q1"]] :
        List (List String)).length ∧
    (∀ L, L < (buildAxisHierarchyFromLeafPaths ["a", "b", "c"]
        [["2024", "Q1"], ["2024", "Q2"], ["2025", "Q1"]]).depth →
      ∃ sl, (buildAxisHierarchyFromLeafPaths ["a", "b", "c"]
          [["2024", "Q1"], ["2024", "Q2"], ["2025", "Q1"]]).spansByLevel.get? L
          = some sl ∧
        SpansCover sl 0 (["a", "b", "c"] : List String).length ∧
        (∀ k, k < (["a", "b", "c"] : List String).length →
          ∃ s ∈ sl, s.startLeafIndex ≤ k ∧ k ≤ s.endLeafIndex) ∧
        List.Pairwise (fun a b => a.endLeafIndex < b.startLeafIndex) sl ∧
        (∀ s ∈ sl, s.startLeafIndex ≤ s.endLeafIndex) ∧
        (sl.map (fun s => s.endLeafIndex - s.startLeafIndex + 1)).sum =
          (["a", "b", "c"] : List String).length) :=
  ⟨by decide,
    (axis_spans_partition ["a", "b", "c"]
      [["2024", "Q1"], ["2024", "Q2"], ["2025", "Q1"]] (by decide)).2⟩

/-! ## Epoch classification (WorldHistoryTimelineTransformer.ts lines 70-87)

The source guards both helpers with `Number.isFinite`; model numbers are
finite rationals, so that guard never fires in the embedding. -/

/-- `normalizeEpochNumber`: treat absolute values in `[1e9, 99_999_999_999]`
as epoch-seconds and normalize them to milliseconds. -/
def normalizeEpochNumber (value : ℚ) : ℚ :=
  if 1000000000 ≤ |value| ∧ |value| ≤ 99999999999 then value * 1000
  else value

/-- `isEpochLike`: epoch-seconds range or epoch-milliseconds range. -/
def isEpochLike (value : ℚ) : Bool :=
  (1000000000 ≤ |value| ∧ |value| ≤ 99999999999) ∨
    (1000000000000 ≤ |value| ∧ |value| ≤ 9999999999999)

/-- C7: `999,999,999` is not classified as epoch-seconds — it is returned
unchanged by `normalizeEpochNumber` and is not epoch-like — while
`1,000,000,000` is classified as epoch-seconds and normalized to
milliseconds by multiplying by `1000`. -/
theorem epoch_threshold_boundary :
    normalizeEpochNumber 999999999 = 999999999 ∧
    isEpochLike 999999999 = false ∧
    normalizeEpochNumber 1000000000 = 1000000000000 ∧
    isEpochLike 1000000000 = true := by
  refine ⟨?_, ?_, ?_, ?_⟩ <;> norm_num [normalizeEpochNumber, isEpochLike, abs]

/-! ## Heatmap matrix transformer (HeatmapTransformer.ts)

The `DataViewMatrix` input shape, as consumed by the transformer: a rows
tree and a columns tree of `DataViewMatrixNode`s plus per-level source
metadata.  `cellValues` models the JS object `node.values` keyed by numeric
strings; JS iterates such integer-like keys in ascending order, so the model
carries the entries as a list in that order. -/

/-- Column metadata (`source`): role flags, sort direction
(`powerbi.SortDirection`: `1` ascending, `2` descending), format and display
name. -/
structure SourceMeta where
  roles : List String
  sortDir : Option Nat
  format : Option String
  displayName : Option String
deriving DecidableEq, Repr

/-- `DataViewHierarchyLevel`. -/
structure HierarchyLevel where
  sources : List SourceMeta
deriving DecidableEq, Repr

/-- `DataViewMatrixGroupValue`: one composite value of a node with the index
of the level source it belongs to. -/
structure LevelValue where
  levelSourceIndex : Nat
  value : JSVal
deriving DecidableEq, Repr

/-- One measure cell of a row-leaf node: `value`, optional `highlight`
(`vnull` models both `null` and `undefined`) and optional
`valueSourceIndex` (defaulted to `0` by the source via `?? 0`). -/
structure MatrixNodeValue where
  value : JSVal
  highlight : JSVal
  valueSourceIndex : Option Nat
deriving DecidableEq, Repr

/-- `DataViewMatrixNode`. -/
inductive MatrixNode where
  | node (level : Option Nat) (levelValues : List LevelValue)
      (isSubtotal : Bool) (cellValues : List (Nat × MatrixNodeValue))
      (children : List MatrixNode)

def MatrixNode.level : MatrixNode → Option Nat
  | .node l _ _ _ _ => l

def MatrixNode.levelValues : MatrixNode → List LevelValue
  | .node _ lv _ _ _ => lv

def MatrixNode.isSubtotal : MatrixNode → Bool
  | .node _ _ s _ _ => s

def MatrixNode.cellValues : MatrixNode → List (Nat × MatrixNodeValue)
  | .node _ _ _ c _ => c

def MatrixNode.children : MatrixNode → List MatrixNode
  | .node _ _ _ _ ch => ch

/-- One side (`rows` or `columns`) of a `DataViewMatrix`. -/
structure MatrixAxisInput where
  root : MatrixNode
  levels : List HierarchyLevel

/-- `DataViewMatrix`. -/
structure HeatmapMatrix where
  rows : MatrixAxisInput
  columns : MatrixAxisInput
  valueSources : List SourceMeta

/-- `nodeIsLeaf` (source line 104). -/
def nodeIsLeaf (n : MatrixNode) : Bool := n.children.isEmpty

/-- Month-name table of `MONTHS` (source lines 41-44). -/
def monthAbbrevNumber : String → Option Nat
  | "jan" => some 1
  | "feb" => some 2
  | "mar" => some 3
  | "apr" => some 4
  | "may" => some 5
  | "jun" => some 6
  | "jul" => some 7
  | "aug" => some 8
  | "sep" => some 9
  | "oct" => some 10
  | "nov" => some 11
  | "dec" => some 12
  | _ => none

/-- Digit run to a natural number. -/
def digitsToNat (cs : List Char) : Nat :=
  cs.foldl (fun acc c => acc * 10 + (c.toNat - '0'.toNat)) 0

/-- First branch of `parseMonthYearKey`: the regex
`^([A-Za-z]{3})[-\s](\d{2}|\d{4})$` followed by the month lookup and the
two-digit-year pivot (`≤ 79 → 2000s`, else `1900s`). -/
def mmmYearKey (mcs : List Char) (sep : Char) (dcs : List Char) : Option Int :=
  if mcs.all Char.isAlpha && (sep = '-' || jsIsSpace sep) &&
      dcs.all Char.isDigit then
    match monthAbbrevNumber (jsToLower (String.mk mcs)) with
    | none => none
    | some month =>
      let yearRaw := digitsToNat dcs
      let year : Int :=
        if dcs.length = 2 then
          (if yearRaw ≤ 79 then 2000 + (yearRaw : Int) else 1900 + (yearRaw : Int))
        else (yearRaw : Int)
      some (year * 100 + month)
  else none

/-- `parseMonthYearKey` (source lines 46-73): `"MMM YYYY"`, `"MMM-YYYY"`,
`"MMM YY"`, `"MMM-YY"` or `"YYYY-MM"`, as `year * 100 + month`.  The two
anchored regexes fix the admissible lengths, so the embedding dispatches on
the character count. -/
def parseMonthYearKey (s : String) : Option Int :=
  let str := jsTrim s
  match str.toList with
  | [a, b, c, sep, d1, d2] => mmmYearKey [a, b, c] sep [d1, d2]
  | [a, b, c, sep, d1, d2, d3, d4] =>
    if [a, b, c].all Char.isAlpha then mmmYearKey [a, b, c] sep [d1, d2, d3, d4]
    else
      -- length 8 cannot match `^(\d{4})-(\d{2})$` either
      none
  | [y1, y2, y3, y4, dash, m1, m2] =>
    if [y1, y2, y3, y4].all Char.isDigit && dash = '-' &&
        [m1, m2].all Char.isDigit then
      some ((digitsToNat [y1, y2, y3, y4] : Int) * 100 +
        (digitsToNat [m1, m2] : Int))
    else none
  | _ => none

/-- `SortValue = number | string` (source line 81). -/
inductive SortValue where
  | num (q : ℚ)
  | str (s : String)
deriving DecidableEq, Repr

/-- JS `String(x)` on a sort value. -/
def sortValueToString : SortValue → String
  | .num q => toString q
  | .str s => s

/-- `normalizeSortValue` (source lines 83-102). -/
def normalizeSortValue (value : JSVal) (labelFallback : String) : SortValue :=
  match value with
  | .vdate ms => .num (ms : ℚ)
  | .vnum q => .num q
  | .vstr s =>
    match parseMonthYearKey s with
    | some p => .num (p : ℚ)
    | none => .str (jsToLower s)
  | .vbool b => .num (if b then 1 else 0)
  | _ =>
    -- `NaN` (a non-finite number) and `null` both fall through to the
    -- label-fallback branch.
    match parseMonthYearKey labelFallback with
    | some p => .num (p : ℚ)
    | none => .str (jsToLower labelFallback)

mutual
/-- `traverseMatrix` (source lines 147-162), specialized to what its two
callers observe: the visitor only acts on visited leaves with a defined
`level`, so the traversal is modelled as the depth-first list of such
leaves, each paired with its node path (which includes the leaf itself,
mirroring `nextPath`).  Subtotal nodes prune their whole subtree. -/
def traverseMatrixLeaves : MatrixNode → List MatrixNode →
    List (MatrixNode × List MatrixNode)
  | MatrixNode.node lvl lvs sub cells ch, path =>
    if sub then []
    else
      let self := MatrixNode.node lvl lvs sub cells ch
      let nextPath := if lvl.isSome then path ++ [self] else path
      (if ch.isEmpty && lvl.isSome then [(self, nextPath)] else []) ++
        traverseMatrixLeavesList ch nextPath

/-- Child traversal of `traverseMatrixLeaves`. -/
def traverseMatrixLeavesList : List MatrixNode → List MatrixNode →
    List (MatrixNode × List MatrixNode)
  | [], _ => []
  | n :: rest, path =>
    traverseMatrixLeaves n path ++ traverseMatrixLeavesList rest path
end

/-- Result triple of `getNodeRoleParts`. -/
structure RoleParts where
  yAxisParts : List String
  xAxisParts : List String
  groupParts : List String
deriving DecidableEq, Repr

/-- `getNodeRoleParts` (source lines 116-145). -/
def getNodeRoleParts (n : MatrixNode) (levels : List HierarchyLevel)
    (fallbackIndex : Nat) : RoleParts :=
  match n.level with
  | none => ⟨[], [], []⟩
  | some lvl =>
    let srcs := ((levels.get? lvl).map HierarchyLevel.sources).getD []
    n.levelValues.foldl
      (fun acc lv =>
        let roles := ((srcs.get? lv.levelSourceIndex).map SourceMeta.roles).getD []
        let label :=
          if "group" ∈ roles then formatGroupValue lv.value
          else formatDataValue lv.value fallbackIndex
        { yAxisParts := acc.yAxisParts ++ (if "yAxis" ∈ roles then [label] else []),
          xAxisParts := acc.xAxisParts ++ (if "xAxis" ∈ roles then [label] else []),
          groupParts := acc.groupParts ++ (if "group" ∈ roles then [label] else []) })
      ⟨[], [], []⟩

/-- The first level value's raw cell, `(p.levelValues?.[0] as any)?.value`. -/
def firstLevelValue (p : MatrixNode) : JSVal :=
  ((p.levelValues.get? 0).map LevelValue.value).getD JSVal.vnull

/-- Sortable leaf record built for each column leaf (source lines 270-275). -/
structure ColLeaf where
  key : String
  path : List String
  sort : List SortValue
  originalIndex : Nat
deriving DecidableEq, Repr

/-- Per-column-leaf label path and sort keys (the body of the column
traversal callback, source lines 245-266). -/
def columnLeafParts (levels : List HierarchyLevel) (pathNodes : List MatrixNode)
    (colLeafIndex : Nat) : List String × List SortValue :=
  pathNodes.foldl
    (fun acc p =>
      let parts := getNodeRoleParts p levels colLeafIndex
      let raw := firstLevelValue p
      let label :=
        if parts.xAxisParts ≠ [] then String.intercalate " • " parts.xAxisParts
        else formatDataValue raw colLeafIndex
      (acc.1 ++ [label], acc.2 ++ [normalizeSortValue raw label]))
    ([], [])

/-- Leaf key: joined parts, or the `colN` fallback when the join is empty
(`xParts.join(KEY_SEP) || `col${colLeafIndex}``). -/
def columnLeafKey (xParts : List String) (colLeafIndex : Nat) : String :=
  let j := String.intercalate keySep xParts
  if j = "" then "col" ++ toString colLeafIndex else j

/-- `xLevelSortDirections` (source lines 240-243): per level, the sort
direction of the first `xAxis`-role source, falling back to the first
source. -/
def xLevelSortDirections (levels : List HierarchyLevel) : List (Option Nat) :=
  levels.map (fun level =>
    match level.sources.find? (fun s => decide ("xAxis" ∈ s.roles)) with
    | some src => src.sortDir
    | none => (level.sources.get? 0).bind SourceMeta.sortDir)

/-- One comparison step of the leaf comparator (source lines 280-303),
walking sort-key positions from `i`; the fuel is the remaining number of
positions (`depth - i`), after which the original-index tie-break applies. -/
def compareLeavesFrom (dirs : List (Option Nat)) (a b : ColLeaf) :
    Nat → Nat → Ordering
  | 0, _ => compare a.originalIndex b.originalIndex
  | fuel + 1, i =>
    match a.sort.get? i, b.sort.get? i with
    | none, none => compareLeavesFrom dirs a b fuel (i + 1)
    | none, some _ => .lt
    | some _, none => .gt
    | some av, some bv =>
      let cmp : Ordering :=
        match av, bv with
        | .num x, .num y => if x < y then .lt else if y < x then .gt else .eq
        | _, _ => strCmp (sortValueToString av) (sortValueToString bv)
      let cmp := if dirs.getD i none = some 2 then cmp.swap else cmp
      if cmp = .eq then compareLeavesFrom dirs a b fuel (i + 1) else cmp

/-- The full leaf comparator: walk `max` sort depth, then tie-break on the
original traversal index. -/
def compareLeaves (dirs : List (Option Nat)) (a b : ColLeaf) : Ordering :=
  compareLeavesFrom dirs a b (max a.sort.length b.sort.length) 0

/-- Stable-sort relation for the leaf comparator. -/
def leafLe (dirs : List (Option Nat)) (a b : ColLeaf) : Prop :=
  compareLeaves dirs a b ≠ .gt

instance (dirs : List (Option Nat)) : DecidableRel (leafLe dirs) :=
  fun a b => inferInstanceAs (Decidable (compareLeaves dirs a b ≠ .gt))

/-- `anySortableNumber` (source line 277): non-empty, and every leaf's last
sort key is a number. -/
def anySortableNumber (leaves : List ColLeaf) : Bool :=
  !leaves.isEmpty && leaves.all (fun l =>
    match l.sort.getLast? with
    | some (.num _) => true
    | _ => false)

/-- Row bucket per group (source line 323). -/
structure RowBucket where
  leafKeys : List String
  leafPaths : List (List String)
  leafNodes : List MatrixNode

/-- Per-row-leaf label path and group value (the body of the row traversal
callback, source lines 330-355): fold over the node path carrying
`(yParts, groupValue)`. -/
def rowLeafParts (levels : List HierarchyLevel) (pathNodes : List MatrixNode)
    (counter : Nat) : List String × Option String :=
  pathNodes.foldl
    (fun acc p =>
      let parts := getNodeRoleParts p levels counter
      let groupValue :=
        if acc.2 = none ∧ parts.groupParts ≠ [] then
          some (String.intercalate " • " parts.groupParts)
        else acc.2
      -- Group-role nodes do not contribute to the Y-axis labels.
      if parts.groupParts ≠ [] ∧ parts.yAxisParts = [] then (acc.1, groupValue)
      else if parts.yAxisParts ≠ [] then
        (acc.1 ++ [String.intercalate " • " parts.yAxisParts], groupValue)
      else
        let fallback := formatDataValue (firstLevelValue p) counter
        if fallback = "" then (acc.1, groupValue)
        else (acc.1 ++ [fallback], groupValue))
    ([], none)

/-- ``(groupValue ?? "").trim() ? groupValue : "All"``. -/
def rowGroupKey (groupValue : Option String) : String :=
  match groupValue with
  | some g => if jsTrim g = "" then "All" else g
  | none => "All"

/-- Cell value of one data point (source lines 400-403): a present
(non-null, non-undefined) highlight overrides the base value, then
`Number(raw) || 0`. -/
def heatmapCellValue (nv : MatrixNodeValue) : ℚ :=
  let rawValue := if nv.highlight ≠ JSVal.vnull then nv.highlight else nv.value
  jsOr0 (jsToNumber rawValue)

/-- `DataPoint` of the shared package (base fields). -/
structure DataPoint where
  xValue : String
  yValue : String
  value : ℚ
  groupValue : String
  index : Nat
deriving DecidableEq, Repr

/-- `HeatmapGroupTotals` (source lines 75-79). -/
structure HeatmapGroupTotals where
  rowTotalsByX : List (String × ℚ)
  colTotalsByY : List (String × ℚ)
  grandTotal : ℚ
deriving DecidableEq, Repr

/-- `IHeatmapVisualSettings.heatmap`, the slice the transformer reads. -/
structure HeatmapSettingsCard where
  showRowTotals : Bool
  showColumnTotals : Bool
  rowTotalsPosition : Option String
  columnTotalsPosition : Option String
deriving DecidableEq, Repr

/-- `HeatmapMatrixData` (source lines 29-36). -/
structure HeatmapMatrixData where
  dataPoints : List DataPoint
  xValues : List String
  yValues : List String
  groups : List String
  maxValue : ℚ
  minValue : ℚ
  xAxis : AxisHierarchy
  yAxisByGroup : List (String × AxisHierarchy)
  valueFormatString : Option String
  valueDisplayName : Option String
  totalsByGroup : List (String × HeatmapGroupTotals)
  overallGrandTotal : ℚ
  totalRowKey : String
  totalColumnKey : String

/-- `TOTAL_ROW_KEY` (source line 39). -/
def TOTAL_ROW_KEY : String := "__bta_total_row__"

/-- `TOTAL_COL_KEY` (source line 40). -/
def TOTAL_COL_KEY : String := "__bta_total_col__"

/-- `makeTotalPath` (source lines 456-461): `max 1 depth` blank parts with
`"Total"` in the last slot. -/
def makeTotalPath (depth : Nat) : List String :=
  let d := max 1 depth
  (List.replicate (d - 1) "") ++ ["Total"]

/-- State of the value-materialization loop (source lines 377-416):
accumulated points, running `maxValue` (initialized `0`), running
`minValue` (`none` models the `Infinity` sentinel) and the next dense
point index. -/
structure EmitState where
  points : List DataPoint
  maxValue : ℚ
  minValueOpt : Option ℚ
  nextIdx : Nat

/-- Running update of `minValue` (source line 405, `Infinity` as `none`):
`if (value > 0 && value < minValue) minValue = value`. -/
def nextMinOpt (minValueOpt : Option ℚ) (value : ℚ) : Option ℚ :=
  match minValueOpt with
  | none => if value > 0 then some value else none
  | some m => if value > 0 ∧ value < m then some value else some m

/-- Emit one measure cell (the body of the `for (const k of valueKeys)`
loop, source lines 389-414). -/
def emitCell (measureCount : Nat) (columnLeafKeyByIndex : List String)
    (rowKey : String) (groupName : String) (s : EmitState)
    (cell : Nat × MatrixNodeValue) : EmitState :=
  let vsi := cell.2.valueSourceIndex.getD 0
  if vsi ≠ 0 then s
  else
    let colIndex := cell.1 / measureCount
    match columnLeafKeyByIndex.get? colIndex with
    | none => s
    | some colKey =>
      if colKey = "" then s
      else
        let value := heatmapCellValue cell.2
        { points := s.points ++
            [{ xValue := colKey, yValue := rowKey, value := value,
               groupValue := groupName, index := s.nextIdx }],
          maxValue := if value > s.maxValue then value else s.maxValue,
          minValueOpt := nextMinOpt s.minValueOpt value,
          nextIdx := s.nextIdx + 1 }

/-- Emit all cells of one row leaf (source lines 383-415). -/
def emitRow (measureCount : Nat) (columnLeafKeyByIndex : List String)
    (groupName : String) (s : EmitState) (row : MatrixNode × String) :
    EmitState :=
  row.1.cellValues.foldl
    (emitCell measureCount columnLeafKeyByIndex row.2 groupName) s

/-- Process all rows of one group (source lines 378-416): build the group's
Y-axis hierarchy and emit the group's points. -/
def emitGroup (measureCount : Nat) (columnLeafKeyByIndex : List String)
    (rowsByGroup : List (String × RowBucket))
    (acc : List (String × AxisHierarchy) × EmitState) (groupName : String) :
    List (String × AxisHierarchy) × EmitState :=
  let bucket := (mapGet rowsByGroup groupName).getD ⟨[], [], []⟩
  let yAxis := buildAxisHierarchyFromLeafPaths bucket.leafKeys bucket.leafPaths
  let s := (bucket.leafNodes.zip bucket.leafKeys).foldl
    (emitRow measureCount columnLeafKeyByIndex groupName) acc.2
  (mapSet acc.1 groupName yAxis, s)

/-- ``(dp.groupValue ?? "").trim() ? dp.groupValue : "All"`` of the totals
loop (source line 425). -/
def totalsGroupKey (g : String) : String :=
  if jsTrim g = "" then "All" else g

/-- One step of the totals accumulation (source lines 423-440). -/
def totalsStep (acc : List (String × HeatmapGroupTotals) × ℚ)
    (dp : DataPoint) : List (String × HeatmapGroupTotals) × ℚ :=
  let overall := acc.2 + dp.value
  let gk := totalsGroupKey dp.groupValue
  let t := (mapGet acc.1 gk).getD ⟨[], [], 0⟩
  let t' : HeatmapGroupTotals :=
    { rowTotalsByX :=
        mapSet t.rowTotalsByX dp.xValue
          (((mapGet t.rowTotalsByX dp.xValue).getD 0) + dp.value),
      colTotalsByY :=
        mapSet t.colTotalsByY dp.yValue
          (((mapGet t.colTotalsByY dp.yValue).getD 0) + dp.value),
      grandTotal := t.grandTotal + dp.value }
  (mapSet acc.1 gk t', overall)

/-- Totals of a point list: the fold of `totalsStep` from the empty map
(source lines 421-440), returning `(totalsByGroup, overallGrandTotal)`. -/
def computeTotals (dps : List DataPoint) :
    List (String × HeatmapGroupTotals) × ℚ :=
  dps.foldl totalsStep ([], 0)

/-- Column-leaf records of the X traversal (source lines 245-275). -/
def heatmapColumnLeaves (matrix : HeatmapMatrix) : List ColLeaf :=
  let colLeaves := traverseMatrixLeaves matrix.columns.root []
  (List.range colLeaves.length).map (fun i =>
    let pathNodes := ((colLeaves.get? i).map Prod.snd).getD []
    let parts := columnLeafParts matrix.columns.levels pathNodes i
    let key := columnLeafKey parts.1 i
    ({ key := key, path := parts.1, sort := parts.2, originalIndex := i } : ColLeaf))

/-- `columnLeafKeyByIndex`: leaf keys in traversal order (the array indexed
by `colLeafIndex`, filled before any sorting, source line 264). -/
def heatmapColumnKeysByIndex (matrix : HeatmapMatrix) : List String :=
  (heatmapColumnLeaves matrix).map ColLeaf.key

/-- Column leaves after the optional chronological/numeric re-sort (source
lines 277-313). -/
def heatmapSortedLeaves (matrix : HeatmapMatrix) : List ColLeaf :=
  let leaves := heatmapColumnLeaves matrix
  let dirs := xLevelSortDirections matrix.columns.levels
  if anySortableNumber leaves then leaves.insertionSort (leafLe dirs)
  else leaves

/-- Row traversal state: the per-group row buckets and the group-name set
(source lines 318-367). -/
def heatmapRowsState (matrix : HeatmapMatrix) :
    List (String × RowBucket) × List String :=
  let rowLeaves := traverseMatrixLeaves matrix.rows.root []
  (List.range rowLeaves.length).foldl
    (fun (acc : List (String × RowBucket) × List String) i =>
      let leaf := (rowLeaves.get? i).getD
        (MatrixNode.node none [] false [] [], [])
      let parts := rowLeafParts matrix.rows.levels leaf.2 i
      let yKey :=
        let j := String.intercalate keySep parts.1
        if j = "" then "row" ++ toString i else j
      let groupKey := rowGroupKey parts.2
      let bucket := (mapGet acc.1 groupKey).getD ⟨[], [], []⟩
      let bucket' : RowBucket :=
        { leafKeys := bucket.leafKeys ++ [yKey],
          leafPaths := bucket.leafPaths ++ [parts.1],
          leafNodes := bucket.leafNodes ++ [leaf.1] }
      (mapSet acc.1 groupKey bucket', setAdd acc.2 groupKey))
    ([], [])

/-- Row buckets with the `"All"` fallback for an empty traversal (source
lines 369-373). -/
def heatmapRowsByGroup (matrix : HeatmapMatrix) : List (String × RowBucket) :=
  let rowsState := heatmapRowsState matrix
  if rowsState.2.isEmpty then mapSet rowsState.1 "All" ⟨[], [], []⟩
  else rowsState.1

/-- Group names, `"All"`-defaulted and sorted with `localeCompare` (source
lines 369-374). -/
def heatmapGroupNames (matrix : HeatmapMatrix) : List String :=
  let rowsState := heatmapRowsState matrix
  let unsorted := if rowsState.2.isEmpty then ["All"] else rowsState.2
  unsorted.insertionSort (fun a b => strCmp a b ≠ .gt)

/-- The value-materialization pass over all groups (source lines 376-416):
per-group Y-axis hierarchies plus the emitted points with running
min/max/index state. -/
def heatmapEmitted (matrix : HeatmapMatrix) :
    List (String × AxisHierarchy) × EmitState :=
  (heatmapGroupNames matrix).foldl
    (emitGroup (max 1 matrix.valueSources.length)
      (heatmapColumnKeysByIndex matrix) (heatmapRowsByGroup matrix))
    ([], ⟨[], 0, none, 0⟩)

/-- One step of the fill-in of groups with no points (source lines
441-449): `if (!totalsByGroup.has(groupName)) totalsByGroup.set(groupName,
empty)`. -/
def fillEmptyTotals (m : List (String × HeatmapGroupTotals)) (g : String) :
    List (String × HeatmapGroupTotals) :=
  if (mapGet m g).isSome then m else mapSet m g ⟨[], [], 0⟩

/-- `totalsByGroup` after the fill-in of groups with no points (source
lines 441-449). -/
def heatmapTotalsByGroup (matrix : HeatmapMatrix) :
    List (String × HeatmapGroupTotals) :=
  (heatmapGroupNames matrix).foldl fillEmptyTotals
    (computeTotals (heatmapEmitted matrix).2.points).1

/-- `transformMatrix` (source lines 223-507), assembled from the pipeline
stages above. -/
def heatmapTransformMatrix (matrix : HeatmapMatrix)
    (settings : Option HeatmapSettingsCard) : HeatmapMatrixData :=
  let valueFormatString := (matrix.valueSources.get? 0).bind SourceMeta.format
  let valueDisplayName := (matrix.valueSources.get? 0).bind SourceMeta.displayName
  let sortedLeaves := heatmapSortedLeaves matrix
  let xLeafKeys := sortedLeaves.map ColLeaf.key
  let xLeafPaths := sortedLeaves.map ColLeaf.path
  let xAxis := buildAxisHierarchyFromLeafPaths xLeafKeys xLeafPaths
  let groupNames := heatmapGroupNames matrix
  let emitted := heatmapEmitted matrix
  let yAxisByGroup := emitted.1
  let dataPoints := emitted.2.points
  let maxValue := emitted.2.maxValue
  let minValue := (emitted.2.minValueOpt).getD 0
  let totalsByGroup := heatmapTotalsByGroup matrix
  let overallGrandTotal := (computeTotals dataPoints).2
  -- ---- Optional synthetic total row/column splicing ----
  let showRowTotals := (settings.map HeatmapSettingsCard.showRowTotals).getD false
  let showColTotals := (settings.map HeatmapSettingsCard.showColumnTotals).getD false
  let rowTotalsPosition := (settings.bind HeatmapSettingsCard.rowTotalsPosition).getD "top"
  let colTotalsPosition := (settings.bind HeatmapSettingsCard.columnTotalsPosition).getD "right"
  let xAxis :=
    if showColTotals then
      let totalPath := makeTotalPath xAxis.depth
      let nextKeys :=
        if colTotalsPosition = "left" then TOTAL_COL_KEY :: xAxis.leafKeys
        else xAxis.leafKeys ++ [TOTAL_COL_KEY]
      let nextPaths :=
        if colTotalsPosition = "left" then totalPath :: xAxis.leafPaths
        else xAxis.leafPaths ++ [totalPath]
      buildAxisHierarchyFromLeafPaths nextKeys nextPaths
    else xAxis
  let yAxisByGroup :=
    if showRowTotals then
      groupNames.foldl
        (fun m g =>
          let yAxis := (mapGet yAxisByGroup g).getD
            (buildAxisHierarchyFromLeafPaths [] [])
          let totalPath := makeTotalPath yAxis.depth
          let nextKeys :=
            if rowTotalsPosition = "top" then TOTAL_ROW_KEY :: yAxis.leafKeys
            else yAxis.leafKeys ++ [TOTAL_ROW_KEY]
          let nextPaths :=
            if rowTotalsPosition = "top" then totalPath :: yAxis.leafPaths
            else yAxis.leafPaths ++ [totalPath]
          mapSet m g (buildAxisHierarchyFromLeafPaths nextKeys nextPaths))
        []
    else yAxisByGroup
  let yValuesAll := groupNames.flatMap
    (fun g => ((mapGet yAxisByGroup g).map AxisHierarchy.leafKeys).getD [])
  { dataPoints := dataPoints,
    xValues := xAxis.leafKeys,
    yValues := yValuesAll,
    groups := groupNames,
    maxValue := maxValue,
    minValue := minValue,
    xAxis := xAxis,
    yAxisByGroup := yAxisByGroup,
    valueFormatString := valueFormatString,
    valueDisplayName := valueDisplayName,
    totalsByGroup := totalsByGroup,
    overallGrandTotal := overallGrandTotal,
    totalRowKey := TOTAL_ROW_KEY,
    totalColumnKey := TOTAL_COL_KEY }

/-- `HeatmapTransformer.transform` (source lines 201-221): dispatch on the
presence of a matrix, with the empty backward-compat model otherwise. -/
def heatmapTransform (matrix : Option HeatmapMatrix)
    (settings : Option HeatmapSettingsCard) : HeatmapMatrixData :=
  match matrix with
  | some m => heatmapTransformMatrix m settings
  | none =>
    { dataPoints := [],
      xValues := [],
      yValues := [],
      groups := [],
      maxValue := 0,
      minValue := 0,
      xAxis := buildAxisHierarchyFromLeafPaths [] [],
      yAxisByGroup := [],
      valueFormatString := none,
      valueDisplayName := none,
      totalsByGroup := [],
      overallGrandTotal := 0,
      totalRowKey := TOTAL_ROW_KEY,
      totalColumnKey := TOTAL_COL_KEY }

/-! ## Association-list map lemmas -/

theorem mapGet_mapSet_self {α : Type} (m : List (String × α)) (k : String)
    (v : α) : mapGet (mapSet m k v) k = some v := by
  induction m with
  | nil => simp [mapGet, mapSet]
  | cons p rest ih =>
    by_cases h : p.1 = k
    · simp [mapSet, h, mapGet]
    · simp only [mapSet]
      rw [if_neg (by exact h)]
      simpa [mapGet, List.find?, h] using ih

theorem mapGet_mapSet_ne {α : Type} (m : List (String × α)) (k k' : String)
    (v : α) (h : k' ≠ k) : mapGet (mapSet m k v) k' = mapGet m k' := by
  induction m with
  | nil => simp [mapGet, mapSet, List.find?, Ne.symm h]
  | cons p rest ih =>
    by_cases hp : p.1 = k
    · subst hp
      simp [mapSet, mapGet, List.find?, Ne.symm h]
    · simp only [mapSet]
      rw [if_neg (by exact hp)]
      by_cases hp' : p.1 = k'
      · simp [mapGet, List.find?, hp']
      · simp only [mapGet, List.find?, hp', decide_eq_false, Bool.false_eq_true] at ih ⊢
        simpa using ih

theorem mapGet_mapSet_isSome {α : Type} (m : List (String × α)) (k k' : String)
    (v : α) (h : (mapGet m k').isSome) : (mapGet (mapSet m k v) k').isSome := by
  by_cases hk : k' = k
  · subst hk; simp [mapGet_mapSet_self]
  · rwa [mapGet_mapSet_ne m k k' v hk]

/-! ## Fold helpers -/

theorem foldl_preserves_mem {α β : Type} {P : α → Prop} {l : List β}
    (f : α → β → α) (h : ∀ s, ∀ x ∈ l, P s → P (f s x)) :
    ∀ s, P s → P (l.foldl f s) := by
  induction l with
  | nil => intro s hs; simpa using hs
  | cons x rest ih =>
    intro s hs
    simp only [List.foldl_cons]
    exact ih (fun s' y hy hs' => h s' y (List.mem_cons_of_mem _ hy) hs') _
      (h s x (List.mem_cons_self _ _) hs)

/-! ## Sums of point values by predicate -/

/-- Sum of the `value` fields of the points satisfying `p`. -/
def sumBy (dps : List DataPoint) (p : DataPoint → Bool) : ℚ :=
  ((dps.filter p).map DataPoint.value).sum

theorem sumBy_nil (p : DataPoint → Bool) : sumBy [] p = 0 := rfl

theorem sumBy_append_singleton (dps : List DataPoint) (dp : DataPoint)
    (p : DataPoint → Bool) :
    sumBy (dps ++ [dp]) p = sumBy dps p + (if p dp then dp.value else 0) := by
  by_cases h : p dp <;> simp [sumBy, List.filter_append, h]

theorem sumBy_eq_zero (dps : List DataPoint) (p : DataPoint → Bool)
    (h : ∀ dp ∈ dps, ¬ p dp) : sumBy dps p = 0 := by
  have : dps.filter p = [] := List.filter_eq_nil.mpr h
  simp [sumBy, this]

theorem sumBy_cons (d : DataPoint) (dps : List DataPoint) (p : DataPoint → Bool) :
    sumBy (d :: dps) p = (if p d then d.value else 0) + sumBy dps p := by
  by_cases h : p d <;> simp [sumBy, List.filter_cons, h]

/-! ## Invariants of the heatmap value-materialization loop -/

/-- Dense-index invariant: the next index equals the number of points
emitted so far, and the emitted indices are exactly `0, 1, 2, …` in
order. -/
def IdxInv (s : EmitState) : Prop :=
  s.nextIdx = s.points.length ∧
  s.points.map DataPoint.index = List.range s.points.length

/-- Min/max invariant of the running fold: `maxValue` never drops below its
`0` initialization and bounds every emitted value, and `minValueOpt` (when
set) is the least strictly-positive emitted value; when unset, no emitted
value is strictly positive. -/
def MinMaxInv (s : EmitState) : Prop :=
  0 ≤ s.maxValue ∧
  (∀ dp ∈ s.points, dp.value ≤ s.maxValue) ∧
  (match s.minValueOpt with
   | none => ∀ dp ∈ s.points, ¬ (0 < dp.value)
   | some m => 0 < m ∧ (∃ dp ∈ s.points, dp.value = m) ∧
       ∀ dp ∈ s.points, 0 < dp.value → m ≤ dp.value)

/-- Group-membership invariant: every emitted point carries a group value
satisfying `P`. -/
def GroupInv (P : String → Prop) (s : EmitState) : Prop :=
  ∀ dp ∈ s.points, P dp.groupValue

/-- `emitCell` either skips the cell or appends exactly one point carrying
the next dense index, updating max/min accordingly. -/
theorem emitCell_eq_or (measureCount : Nat) (keys : List String)
    (rowKey groupName : String) (s : EmitState) (cell : Nat × MatrixNodeValue) :
    emitCell measureCount keys rowKey groupName s cell = s ∨
    ∃ colKey value,
      emitCell measureCount keys rowKey groupName s cell =
        { points := s.points ++
            [{ xValue := colKey, yValue := rowKey, value := value,
               groupValue := groupName, index := s.nextIdx }],
          maxValue := if value > s.maxValue then value else s.maxValue,
          minValueOpt := nextMinOpt s.minValueOpt value,
          nextIdx := s.nextIdx + 1 } := by
  unfold emitCell
  by_cases hv : cell.2.valueSourceIndex.getD 0 ≠ 0
  · left; simp [hv]
  · simp only [hv, if_false, ite_false, reduceIte]
    rcases hcol : keys.get? (cell.1 / measureCount) with _ | colKey
    · left; rfl
    · by_cases hk : colKey = ""
      · left; simp [hk]
      · right
        exact ⟨colKey, heatmapCellValue cell.2, by simp [hk]⟩

theorem emitCell_idx (measureCount : Nat) (keys : List String)
    (rowKey groupName : String) (s : EmitState) (cell : Nat × MatrixNodeValue)
    (h : IdxInv s) : IdxInv (emitCell measureCount keys rowKey groupName s cell) := by
  obtain ⟨h1, h2⟩ := h
  rcases emitCell_eq_or measureCount keys rowKey groupName s cell with he | ⟨ck, v, he⟩
  · rw [he]; exact ⟨h1, h2⟩
  · rw [he]
    refine ⟨?_, ?_⟩
    · simp [IdxInv, h1]
    · simp only [List.map_append, List.length_append, List.map_cons,
        List.map_nil, List.length_cons, List.length_nil]
      rw [h2, h1]
      simp [List.range_succ]

theorem emitCell_minmax (measureCount : Nat) (keys : List String)
    (rowKey groupName : String) (s : EmitState) (cell : Nat × MatrixNodeValue)
    (h : MinMaxInv s) :
    MinMaxInv (emitCell measureCount keys rowKey groupName s cell) := by
  obtain ⟨h0, hmax, hmin⟩ := h
  rcases emitCell_eq_or measureCount keys rowKey groupName s cell with he | ⟨ck, v, he⟩
  · rw [he]; exact ⟨h0, hmax, hmin⟩
  rw [he]
  constructor
  · -- 0 ≤ new maxValue
    dsimp only
    by_cases hgt : v > s.maxValue
    · rw [if_pos hgt]; exact le_of_lt (lt_of_le_of_lt h0 hgt)
    · rw [if_neg hgt]; exact h0
  constructor
  · -- all values bounded by new maxValue
    intro dp hdp
    dsimp only at hdp ⊢
    rcases List.mem_append.mp hdp with hold | hnew
    · have hb := hmax dp hold
      by_cases hgt : v > s.maxValue
      · rw [if_pos hgt]; exact le_trans hb (le_of_lt hgt)
      · rw [if_neg hgt]; exact hb
    · simp only [List.mem_singleton] at hnew
      subst hnew
      dsimp only
      by_cases hgt : v > s.maxValue
      · rw [if_pos hgt]
      · rw [if_neg hgt]; exact le_of_not_lt hgt
  · -- min invariant
    dsimp only
    rcases hm : s.minValueOpt with _ | m
    · rw [hm] at hmin
      simp only [nextMinOpt]
      by_cases hpos : v > 0
      · rw [if_pos hpos]
        refine ⟨hpos, ⟨_, List.mem_append_right _ (List.mem_singleton.mpr rfl), rfl⟩, ?_⟩
        intro dp hdp hdppos
        rcases List.mem_append.mp hdp with hold | hnew
        · exact absurd hdppos (hmin dp hold)
        · simp only [List.mem_singleton] at hnew; subst hnew; exact le_refl _
      · rw [if_neg hpos]
        intro dp hdp
        rcases List.mem_append.mp hdp with hold | hnew
        · exact hmin dp hold
        · simp only [List.mem_singleton] at hnew; subst hnew; exact hpos
    · rw [hm] at hmin
      obtain ⟨hm0, ⟨w, hwmem, hwval⟩, hmle⟩ := hmin
      simp only [nextMinOpt]
      by_cases hcond : v > 0 ∧ v < m
      · rw [if_pos hcond]
        refine ⟨hcond.1, ⟨_, List.mem_append_right _ (List.mem_singleton.mpr rfl), rfl⟩, ?_⟩
        intro dp hdp hdppos
        rcases List.mem_append.mp hdp with hold | hnew
        · exact le_trans (le_of_lt hcond.2) (hmle dp hold hdppos)
        · simp only [List.mem_singleton] at hnew; subst hnew; exact le_refl _
      · rw [if_neg hcond]
        refine ⟨hm0, ⟨w, List.mem_append_left _ hwmem, hwval⟩, ?_⟩
        intro dp hdp hdppos
        rcases List.mem_append.mp hdp with hold | hnew
        · exact hmle dp hold hdppos
        · simp only [List.mem_singleton] at hnew
          subst hnew
          dsimp only at hdppos ⊢
          rcases not_and_or.mp hcond with hc | hc
          · exact absurd hdppos hc
          · exact le_of_not_lt hc

theorem emitCell_group (P : String → Prop) (measureCount : Nat)
    (keys : List String) (rowKey groupName : String) (s : EmitState)
    (cell : Nat × MatrixNodeValue) (hg : P groupName) (h : GroupInv P s) :
    GroupInv P (emitCell measureCount keys rowKey groupName s cell) := by
  rcases emitCell_eq_or measureCount keys rowKey groupName s cell with he | ⟨ck, v, he⟩
  · rw [he]; exact h
  · rw [he]
    intro dp hdp
    rcases List.mem_append.mp hdp with hold | hnew
    · exact h dp hold
    · simp only [List.mem_singleton] at hnew; subst hnew; exact hg

theorem emitRow_idx (measureCount : Nat) (keys : List String)
    (groupName : String) (s : EmitState) (row : MatrixNode × String)
    (h : IdxInv s) : IdxInv (emitRow measureCount keys groupName s row) := by
  unfold emitRow
  exact foldl_preserves_mem _
    (fun s' c _ hs' => emitCell_idx measureCount keys row.2 groupName s' c hs') s h

theorem emitRow_minmax (measureCount : Nat) (keys : List String)
    (groupName : String) (s : EmitState) (row : MatrixNode × String)
    (h : MinMaxInv s) : MinMaxInv (emitRow measureCount keys groupName s row) := by
  unfold emitRow
  exact foldl_preserves_mem _
    (fun s' c _ hs' => emitCell_minmax measureCount keys row.2 groupName s' c hs') s h

theorem emitRow_group (P : String → Prop) (measureCount : Nat)
    (keys : List String) (groupName : String) (s : EmitState)
    (row : MatrixNode × String) (hg : P groupName) (h : GroupInv P s) :
    GroupInv P (emitRow measureCount keys groupName s row) := by
  unfold emitRow
  exact foldl_preserves_mem _
    (fun s' c _ hs' => emitCell_group P measureCount keys row.2 groupName s' c hg hs') s h

theorem emitGroup_idx (measureCount : Nat) (keys : List String)
    (rowsByGroup : List (String × RowBucket))
    (acc : List (String × AxisHierarchy) × EmitState) (g : String)
    (h : IdxInv acc.2) :
    IdxInv (emitGroup measureCount keys rowsByGroup acc g).2 := by
  unfold emitGroup
  exact foldl_preserves_mem _
    (fun s' r _ hs' => emitRow_idx measureCount keys g s' r hs') acc.2 h

theorem emitGroup_minmax (measureCount : Nat) (keys : List String)
    (rowsByGroup : List (String × RowBucket))
    (acc : List (String × AxisHierarchy) × EmitState) (g : String)
    (h : MinMaxInv acc.2) :
    MinMaxInv (emitGroup measureCount keys rowsByGroup acc g).2 := by
  unfold emitGroup
  exact foldl_preserves_mem _
    (fun s' r _ hs' => emitRow_minmax measureCount keys g s' r hs') acc.2 h

theorem emitGroup_group (P : String → Prop) (measureCount : Nat)
    (keys : List String) (rowsByGroup : List (String × RowBucket))
    (acc : List (String × AxisHierarchy) × EmitState) (g : String)
    (hg : P g) (h : GroupInv P acc.2) :
    GroupInv P (emitGroup measureCount keys rowsByGroup acc g).2 := by
  unfold emitGroup
  exact foldl_preserves_mem _
    (fun s' r _ hs' => emitRow_group P measureCount keys g s' r hg hs') acc.2 h

theorem emitInit_idx : IdxInv (⟨[], 0, none, 0⟩ : EmitState) := by
  constructor <;> rfl

theorem emitInit_minmax : MinMaxInv (⟨[], 0, none, 0⟩ : EmitState) := by
  refine ⟨le_refl 0, ?_, ?_⟩
  · intro dp hdp; simp at hdp
  · intro dp hdp; simp at hdp

theorem heatmapEmitted_idx (matrix : HeatmapMatrix) :
    IdxInv (heatmapEmitted matrix).2 := by
  unfold heatmapEmitted
  exact foldl_preserves_mem (P := fun acc => IdxInv acc.2) _
    (fun acc g _ hacc => emitGroup_idx _ _ _ acc g hacc)
    (([], ⟨[], 0, none, 0⟩) : List (String × AxisHierarchy) × EmitState)
    emitInit_idx

theorem emitted_foldl_minmax (mc : Nat) (keys : List String)
    (rbg : List (String × RowBucket)) (gs : List String) :
    ∀ acc, MinMaxInv acc.2 →
      MinMaxInv (gs.foldl (emitGroup mc keys rbg) acc).2 := by
  induction gs with
  | nil => intro acc h; simpa using h
  | cons g rest ih =>
    intro acc h
    exact ih _ (emitGroup_minmax mc keys rbg acc g h)

theorem heatmapEmitted_minmax (matrix : HeatmapMatrix) :
    MinMaxInv (heatmapEmitted matrix).2 := by
  unfold heatmapEmitted
  exact emitted_foldl_minmax _ _ _ _ _ emitInit_minmax

theorem heatmapEmitted_groups (matrix : HeatmapMatrix) :
    GroupInv (· ∈ heatmapGroupNames matrix) (heatmapEmitted matrix).2 := by
  unfold heatmapEmitted
  refine foldl_preserves_mem
    (P := fun acc => GroupInv (· ∈ heatmapGroupNames matrix) acc.2) _
    (fun acc g hgmem hacc => emitGroup_group _ _ _ _ acc g hgmem hacc)
    (([], ⟨[], 0, none, 0⟩) : List (String × AxisHierarchy) × EmitState) ?_
  intro dp hdp; simp at hdp

/-! ## Group-name properties -/

theorem mem_setAdd (s : List String) (k x : String) :
    x ∈ setAdd s k ↔ x ∈ s ∨ x = k := by
  unfold setAdd
  by_cases h : k ∈ s
  · simp only [if_pos h]
    constructor
    · exact Or.inl
    · rintro (hx | hx)
      · exact hx
      · subst hx; exact h
  · simp [if_neg h]

theorem nodup_setAdd (s : List String) (k : String) (h : s.Nodup) :
    (setAdd s k).Nodup := by
  unfold setAdd
  by_cases hk : k ∈ s
  · simpa [if_pos hk]
  · simp only [if_neg hk]
    simpa [List.nodup_append] using ⟨h, hk⟩

/-- `totalsGroupKey` is the identity on every name that the row pass can
produce as a group key. -/
theorem totalsGroupKey_rowGroupKey (gv : Option String) :
    totalsGroupKey (rowGroupKey gv) = rowGroupKey gv := by
  unfold totalsGroupKey rowGroupKey
  match gv with
  | none => decide
  | some g =>
    by_cases h : jsTrim g = ""
    · simp only [if_pos h]; decide
    · simp [if_neg h, h]

theorem heatmapRowsState_names (matrix : HeatmapMatrix) :
    (heatmapRowsState matrix).2.Nodup ∧
      ∀ g ∈ (heatmapRowsState matrix).2, totalsGroupKey g = g := by
  unfold heatmapRowsState
  refine foldl_preserves_mem
    (P := fun (acc : List (String × RowBucket) × List String) =>
      acc.2.Nodup ∧ ∀ g ∈ acc.2, totalsGroupKey g = g) _ ?_ _ ?_
  · intro acc i _ hacc
    refine ⟨nodup_setAdd _ _ hacc.1, ?_⟩
    intro g hg
    rcases (mem_setAdd _ _ _).mp hg with hmem | heq
    · exact hacc.2 g hmem
    · subst heq
      exact totalsGroupKey_rowGroupKey _
  · exact ⟨List.nodup_nil, by intro g hg; simp at hg⟩

theorem heatmapGroupNames_nodup (matrix : HeatmapMatrix) :
    (heatmapGroupNames matrix).Nodup := by
  unfold heatmapGroupNames
  have hperm := List.perm_insertionSort
    (fun a b => strCmp a b ≠ .gt)
    (if (heatmapRowsState matrix).2.isEmpty then ["All"]
     else (heatmapRowsState matrix).2)
  refine hperm.nodup_iff.mpr ?_
  by_cases h : (heatmapRowsState matrix).2.isEmpty
  · simp [h]
  · simpa [h] using (heatmapRowsState_names matrix).1

theorem heatmapGroupNames_fixed (matrix : HeatmapMatrix) :
    ∀ g ∈ heatmapGroupNames matrix, totalsGroupKey g = g := by
  unfold heatmapGroupNames
  intro g hg
  have hperm := List.perm_insertionSort
    (fun a b => strCmp a b ≠ .gt)
    (if (heatmapRowsState matrix).2.isEmpty then ["All"]
     else (heatmapRowsState matrix).2)
  have hg' := hperm.mem_iff.mp hg
  by_cases h : (heatmapRowsState matrix).2.isEmpty
  · rw [if_pos h] at hg'
    simp at hg'
    subst hg'
    decide
  · rw [if_neg h] at hg'
    exact (heatmapRowsState_names matrix).2 g hg'

/-- Every point of the transform output carries a group value that is one of
the output's group names and is a fixpoint of `totalsGroupKey`. -/
theorem heatmap_points_groupValue (matrix : HeatmapMatrix) :
    ∀ dp ∈ (heatmapEmitted matrix).2.points,
      dp.groupValue ∈ heatmapGroupNames matrix ∧
        totalsGroupKey dp.groupValue = dp.groupValue := by
  intro dp hdp
  have h1 := heatmapEmitted_groups matrix dp hdp
  exact ⟨h1, heatmapGroupNames_fixed matrix _ h1⟩

/-! ## Totals correctness -/

theorem mapGet_mapSet_none {α : Type} (m : List (String × α)) (k g : String)
    (v : α) (h : mapGet (mapSet m k v) g = none) : mapGet m g = none := by
  by_cases hk : g = k
  · subst hk
    rw [mapGet_mapSet_self] at h
    exact absurd h (by simp)
  · rwa [mapGet_mapSet_ne m k g v hk] at h

theorem sumBy_congr (dps : List DataPoint) (p q : DataPoint → Bool)
    (h : ∀ dp ∈ dps, p dp = q dp) : sumBy dps p = sumBy dps q := by
  unfold sumBy
  rw [List.filter_congr h]

/-- Per-group totals specification: the totals record of group `g` carries
exactly the filtered sums of `dps`. -/
def GroupTotalsSpec (dps : List DataPoint) (g : String)
    (t : HeatmapGroupTotals) : Prop :=
  t.grandTotal = sumBy dps (fun dp => decide (totalsGroupKey dp.groupValue = g)) ∧
  (∀ x, (mapGet t.rowTotalsByX x).getD 0 =
    sumBy dps (fun dp => decide (totalsGroupKey dp.groupValue = g ∧ dp.xValue = x))) ∧
  (∀ x, mapGet t.rowTotalsByX x = none →
    sumBy dps (fun dp => decide (totalsGroupKey dp.groupValue = g ∧ dp.xValue = x)) = 0) ∧
  (∀ y, (mapGet t.colTotalsByY y).getD 0 =
    sumBy dps (fun dp => decide (totalsGroupKey dp.groupValue = g ∧ dp.yValue = y))) ∧
  (∀ y, mapGet t.colTotalsByY y = none →
    sumBy dps (fun dp => decide (totalsGroupKey dp.groupValue = g ∧ dp.yValue = y)) = 0)

/-- Full specification of the totals fold. -/
def TotalsSpec (dps : List DataPoint)
    (acc : List (String × HeatmapGroupTotals) × ℚ) : Prop :=
  acc.2 = (dps.map DataPoint.value).sum ∧
  ∀ g, (∀ t, mapGet acc.1 g = some t → GroupTotalsSpec dps g t) ∧
    (mapGet acc.1 g = none → ∀ dp ∈ dps, totalsGroupKey dp.groupValue ≠ g)


theorem totalsStep_fresh (dps : List DataPoint) (dp : DataPoint)
    (m : List (String × HeatmapGroupTotals)) (o : ℚ)
    (hget : mapGet m (totalsGroupKey dp.groupValue) = none) :
    totalsStep (m, o) dp =
      (mapSet m (totalsGroupKey dp.groupValue)
        { rowTotalsByX := [(dp.xValue, 0 + dp.value)],
          colTotalsByY := [(dp.yValue, 0 + dp.value)],
          grandTotal := 0 + dp.value },
       o + dp.value) := by
  simp only [totalsStep]
  rw [hget]
  simp [mapGet, mapSet]

theorem totalsStep_seen (dps : List DataPoint) (dp : DataPoint)
    (m : List (String × HeatmapGroupTotals)) (o : ℚ) (t0 : HeatmapGroupTotals)
    (hget : mapGet m (totalsGroupKey dp.groupValue) = some t0) :
    totalsStep (m, o) dp =
      (mapSet m (totalsGroupKey dp.groupValue)
        { rowTotalsByX := mapSet t0.rowTotalsByX dp.xValue
            (((mapGet t0.rowTotalsByX dp.xValue).getD 0) + dp.value),
          colTotalsByY := mapSet t0.colTotalsByY dp.yValue
            (((mapGet t0.colTotalsByY dp.yValue).getD 0) + dp.value),
          grandTotal := t0.grandTotal + dp.value },
       o + dp.value) := by
  simp [totalsStep, hget]

theorem totalsStep_preserves (dps : List DataPoint) (dp : DataPoint)
    (m : List (String × HeatmapGroupTotals)) (o : ℚ)
    (h : TotalsSpec dps (m, o)) :
    TotalsSpec (dps ++ [dp]) (totalsStep (m, o) dp) := by
  obtain ⟨ho, hmg⟩ := h
  simp only at ho
  rcases hget : mapGet m (totalsGroupKey dp.groupValue) with _ | t0
  · -- group key unseen so far
    have hnone := (hmg _).2 hget
    rw [totalsStep_fresh dps dp m o hget]
    refine ⟨by simp [ho], ?_⟩
    intro g
    by_cases hg : g = totalsGroupKey dp.groupValue
    · subst hg
      constructor
      · intro t' ht'
        rw [mapGet_mapSet_self] at ht'
        injection ht' with ht'
        subst ht'
        have hz : ∀ p : DataPoint → Bool,
            (∀ d ∈ dps, ¬ p d) → sumBy dps p = 0 := sumBy_eq_zero dps
        refine ⟨?_, ?_, ?_, ?_, ?_⟩
        · rw [sumBy_append_singleton,
            hz _ (fun d hd => by simpa using hnone d hd)]
          simp
        · intro x
          rw [sumBy_append_singleton,
            hz _ (fun d hd => by simpa using fun hk _ => hnone d hd hk)]
          by_cases hx : x = dp.xValue
          · subst hx
            simp [mapGet]
          · simp [mapGet, Ne.symm hx, hx]
        · intro x hxnone
          rw [sumBy_append_singleton,
            hz _ (fun d hd => by simpa using fun hk _ => hnone d hd hk)]
          simp only [mapGet, List.find?] at hxnone
          by_cases hx : dp.xValue = x
          · rw [decide_eq_true (by exact hx)] at hxnone
            exact absurd hxnone (by simp)
          · simp [hx]
        · intro y
          rw [sumBy_append_singleton,
            hz _ (fun d hd => by simpa using fun hk _ => hnone d hd hk)]
          by_cases hy : y = dp.yValue
          · subst hy
            simp [mapGet]
          · simp [mapGet, Ne.symm hy, hy]
        · intro y hynone
          rw [sumBy_append_singleton,
            hz _ (fun d hd => by simpa using fun hk _ => hnone d hd hk)]
          simp only [mapGet, List.find?] at hynone
          by_cases hy : dp.yValue = y
          · rw [decide_eq_true (by exact hy)] at hynone
            exact absurd hynone (by simp)
          · simp [hy]
      · intro hcontra
        rw [mapGet_mapSet_self] at hcontra
        exact absurd hcontra (by simp)
    · constructor
      · intro t ht
        rw [mapGet_mapSet_ne _ _ _ _ hg] at ht
        obtain ⟨hgrand, hrow, hrowz, hcol, hcolz⟩ := (hmg g).1 t ht
        have hdpne : ¬ totalsGroupKey dp.groupValue = g := fun hk => hg hk.symm
        refine ⟨?_, ?_, ?_, ?_, ?_⟩
        · rw [sumBy_append_singleton, hgrand]; simp [hdpne]
        · intro x
          rw [sumBy_append_singleton, hrow x]; simp [hdpne]
        · intro x hx
          rw [sumBy_append_singleton, hrowz x hx]; simp [hdpne]
        · intro y
          rw [sumBy_append_singleton, hcol y]; simp [hdpne]
        · intro y hy
          rw [sumBy_append_singleton, hcolz y hy]; simp [hdpne]
      · intro hnone' d hd
        rw [mapGet_mapSet_ne _ _ _ _ hg] at hnone'
        rcases List.mem_append.mp hd with hold | hnew
        · exact (hmg g).2 hnone' d hold
        · simp only [List.mem_singleton] at hnew
          subst hnew
          exact fun hk => hg hk.symm
  · -- group key already present, with spec t0
    obtain ⟨hgrand0, hrow0, hrowz0, hcol0, hcolz0⟩ := (hmg _).1 t0 hget
    rw [totalsStep_seen dps dp m o t0 hget]
    refine ⟨by simp [ho], ?_⟩
    intro g
    by_cases hg : g = totalsGroupKey dp.groupValue
    · subst hg
      constructor
      · intro t' ht'
        rw [mapGet_mapSet_self] at ht'
        injection ht' with ht'
        subst ht'
        refine ⟨?_, ?_, ?_, ?_, ?_⟩
        · rw [sumBy_append_singleton, hgrand0]
          simp
        · intro x
          by_cases hx : x = dp.xValue
          · subst hx
            rw [sumBy_append_singleton]
            simp only [mapGet_mapSet_self, Option.getD_some]
            rw [hrow0 dp.xValue]
            simp
          · rw [mapGet_mapSet_ne _ _ _ _ hx, sumBy_append_singleton, hrow0 x]
            simp [Ne.symm hx]
        · intro x hxnone
          have hne : x ≠ dp.xValue := by
            intro hx
            rw [hx, mapGet_mapSet_self] at hxnone
            exact absurd hxnone (by simp)
          rw [mapGet_mapSet_ne _ _ _ _ hne] at hxnone
          rw [sumBy_append_singleton, hrowz0 x hxnone]
          simp [Ne.symm hne]
        · intro y
          by_cases hy : y = dp.yValue
          · subst hy
            rw [sumBy_append_singleton]
            simp only [mapGet_mapSet_self, Option.getD_some]
            rw [hcol0 dp.yValue]
            simp
          · rw [mapGet_mapSet_ne _ _ _ _ hy, sumBy_append_singleton, hcol0 y]
            simp [Ne.symm hy]
        · intro y hynone
          have hne : y ≠ dp.yValue := by
            intro hy
            rw [hy, mapGet_mapSet_self] at hynone
            exact absurd hynone (by simp)
          rw [mapGet_mapSet_ne _ _ _ _ hne] at hynone
          rw [sumBy_append_singleton, hcolz0 y hynone]
          simp [Ne.symm hne]
      · intro hcontra
        rw [mapGet_mapSet_self] at hcontra
        exact absurd hcontra (by simp)
    · constructor
      · intro t ht
        rw [mapGet_mapSet_ne _ _ _ _ hg] at ht
        obtain ⟨hgrand, hrow, hrowz, hcol, hcolz⟩ := (hmg g).1 t ht
        have hdpne : ¬ totalsGroupKey dp.groupValue = g := fun hk => hg hk.symm
        refine ⟨?_, ?_, ?_, ?_, ?_⟩
        · rw [sumBy_append_singleton, hgrand]; simp [hdpne]
        · intro x
          rw [sumBy_append_singleton, hrow x]; simp [hdpne]
        · intro x hx
          rw [sumBy_append_singleton, hrowz x hx]; simp [hdpne]
        · intro y
          rw [sumBy_append_singleton, hcol y]; simp [hdpne]
        · intro y hy
          rw [sumBy_append_singleton, hcolz y hy]; simp [hdpne]
      · intro hnone' d hd
        rw [mapGet_mapSet_ne _ _ _ _ hg] at hnone'
        rcases List.mem_append.mp hd with hold | hnew
        · exact (hmg g).2 hnone' d hold
        · simp only [List.mem_singleton] at hnew
          subst hnew
          exact fun hk => hg hk.symm

theorem computeTotals_spec (dps : List DataPoint) :
    TotalsSpec dps (computeTotals dps) := by
  unfold computeTotals
  induction dps using List.reverseRecOn with
  | nil =>
    refine ⟨rfl, ?_⟩
    intro g
    constructor
    · intro t ht; simp [mapGet] at ht
    · intro _ dp hdp; simp at hdp
  | append_singleton dps dp ih =>
    rw [List.foldl_append]
    simp only [List.foldl_cons, List.foldl_nil]
    rcases hpair : dps.foldl totalsStep ([], 0) with ⟨m, o⟩
    rw [hpair] at ih
    exact totalsStep_preserves dps dp m o ih

/-- The empty totals record satisfies the per-group spec for a group that
owns no points. -/
theorem emptyTotals_spec (dps : List DataPoint) (g : String)
    (h : ∀ dp ∈ dps, totalsGroupKey dp.groupValue ≠ g) :
    GroupTotalsSpec dps g ⟨[], [], 0⟩ := by
  have hz : ∀ p : DataPoint → Bool, (∀ d ∈ dps, ¬ p d) → sumBy dps p = 0 :=
    sumBy_eq_zero dps
  refine ⟨?_, ?_, ?_, ?_, ?_⟩
  · rw [hz _ (fun d hd => by simpa using h d hd)]
  · intro x
    rw [hz _ (fun d hd => by simpa using fun hk _ => h d hd hk)]
    simp [mapGet]
  · intro x _
    exact hz _ (fun d hd => by simpa using fun hk _ => h d hd hk)
  · intro y
    rw [hz _ (fun d hd => by simpa using fun hk _ => h d hd hk)]
    simp [mapGet]
  · intro y _
    exact hz _ (fun d hd => by simpa using fun hk _ => h d hd hk)

/-- The fill fold keeps the totals spec and group-absence information. -/
theorem fillEmptyTotals_preserves (dps : List DataPoint)
    (m : List (String × HeatmapGroupTotals)) (g' : String)
    (h1 : ∀ g t, mapGet m g = some t → GroupTotalsSpec dps g t)
    (h2 : ∀ g, mapGet m g = none → ∀ dp ∈ dps, totalsGroupKey dp.groupValue ≠ g) :
    (∀ g t, mapGet (fillEmptyTotals m g') g = some t → GroupTotalsSpec dps g t) ∧
    (∀ g, mapGet (fillEmptyTotals m g') g = none →
      ∀ dp ∈ dps, totalsGroupKey dp.groupValue ≠ g) := by
  unfold fillEmptyTotals
  by_cases hs : (mapGet m g').isSome
  · rw [if_pos hs]
    exact ⟨h1, h2⟩
  · rw [if_neg hs]
    have hnone : mapGet m g' = none := Option.not_isSome_iff_eq_none.mp hs
    constructor
    · intro g t ht
      by_cases hg : g = g'
      · subst hg
        rw [mapGet_mapSet_self] at ht
        injection ht with ht
        subst ht
        exact emptyTotals_spec dps g (h2 g hnone)
      · rw [mapGet_mapSet_ne _ _ _ _ hg] at ht
        exact h1 g t ht
    · intro g hg
      have := mapGet_mapSet_none _ _ _ _ hg
      exact h2 g this

theorem fill_foldl_preserves (dps : List DataPoint) (gs : List String) :
    ∀ m,
      (∀ g t, mapGet m g = some t → GroupTotalsSpec dps g t) →
      (∀ g, mapGet m g = none → ∀ dp ∈ dps, totalsGroupKey dp.groupValue ≠ g) →
      ∀ g t, mapGet (gs.foldl fillEmptyTotals m) g = some t →
        GroupTotalsSpec dps g t := by
  induction gs with
  | nil => intro m h1 _ g t ht; exact h1 g t ht
  | cons g' rest ih =>
    intro m h1 h2
    simp only [List.foldl_cons]
    obtain ⟨h1', h2'⟩ := fillEmptyTotals_preserves dps m g' h1 h2
    exact ih _ h1' h2'

theorem fill_foldl_isSome (gs : List String) :
    ∀ m g, (mapGet m g).isSome →
      (mapGet (gs.foldl fillEmptyTotals m) g).isSome := by
  induction gs with
  | nil => intro m g h; exact h
  | cons g' rest ih =>
    intro m g h
    simp only [List.foldl_cons]
    refine ih _ g ?_
    unfold fillEmptyTotals
    by_cases hs : (mapGet m g').isSome
    · rwa [if_pos hs]
    · rw [if_neg hs]
      exact mapGet_mapSet_isSome _ _ _ _ h

theorem fill_foldl_mem_isSome (gs : List String) :
    ∀ m g, g ∈ gs → (mapGet (gs.foldl fillEmptyTotals m) g).isSome := by
  induction gs with
  | nil => intro m g h; simp at h
  | cons g' rest ih =>
    intro m g h
    simp only [List.foldl_cons]
    rcases List.mem_cons.mp h with hg | hg
    · subst hg
      refine fill_foldl_isSome rest _ g ?_
      unfold fillEmptyTotals
      by_cases hs : (mapGet m g).isSome
      · rwa [if_pos hs]
      · rw [if_neg hs]
        rw [mapGet_mapSet_self]
        simp
    · exact ih _ g hg

/-- Specification of the post-fill totals map of the heatmap transform. -/
theorem heatmapTotalsByGroup_spec (matrix : HeatmapMatrix) :
    (∀ g t, mapGet (heatmapTotalsByGroup matrix) g = some t →
      GroupTotalsSpec (heatmapEmitted matrix).2.points g t) ∧
    (∀ g ∈ heatmapGroupNames matrix,
      (mapGet (heatmapTotalsByGroup matrix) g).isSome) := by
  unfold heatmapTotalsByGroup
  have hspec := computeTotals_spec (heatmapEmitted matrix).2.points
  obtain ⟨_, hmg⟩ := hspec
  constructor
  · exact fill_foldl_preserves _ _ _
      (fun g t ht => (hmg g).1 t ht) (fun g hg => (hmg g).2 hg)
  · intro g hg
    exact fill_foldl_mem_isSome _ _ g hg

/-! ## Sum over groups -/

theorem sum_map_add (gs : List String) (f h : String → ℚ) :
    (gs.map (fun g => f g + h g)).sum = (gs.map f).sum + (gs.map h).sum := by
  induction gs with
  | nil => simp
  | cons g rest ih => simp [ih]; ring

theorem sum_indicator (gs : List String) (a : String) (v : ℚ)
    (hnd : gs.Nodup) (ha : a ∈ gs) :
    (gs.map (fun g => if a = g then v else 0)).sum = v := by
  induction gs with
  | nil => simp at ha
  | cons g rest ih =>
    rcases List.mem_cons.mp ha with hg | hg
    · subst hg
      have hnotmem : a ∉ rest := (List.nodup_cons.mp hnd).1
      have hz : (rest.map (fun g => if a = g then v else 0)).sum = 0 := by
        rw [List.sum_eq_zero]
        intro x hx
        simp only [List.mem_map] at hx
        obtain ⟨b, hb, hxb⟩ := hx
        have hab : ¬ a = b := fun hab => hnotmem (hab ▸ hb)
        rw [if_neg hab] at hxb
        exact hxb.symm
      simp [hz]
    · have hne : ¬ a = g := by
        intro hag
        subst hag
        exact (List.nodup_cons.mp hnd).1 hg
      simp only [List.map_cons, List.sum_cons, if_neg hne, zero_add]
      exact ih (List.nodup_cons.mp hnd).2 hg

theorem sum_sumBy_groups (dps : List DataPoint) (gs : List String)
    (hnd : gs.Nodup) (hcov : ∀ dp ∈ dps, dp.groupValue ∈ gs) :
    (gs.map (fun g => sumBy dps (fun dp => decide (dp.groupValue = g)))).sum =
      (dps.map DataPoint.value).sum := by
  induction dps with
  | nil => simp [sumBy_nil]
  | cons d rest ih =>
    have hrest : ∀ dp ∈ rest, dp.groupValue ∈ gs :=
      fun dp hdp => hcov dp (List.mem_cons_of_mem _ hdp)
    have hmap : gs.map (fun g => sumBy (d :: rest)
        (fun dp => decide (dp.groupValue = g))) =
      gs.map (fun g => (if d.groupValue = g then d.value else 0) +
        sumBy rest (fun dp => decide (dp.groupValue = g))) := by
      refine List.map_congr_left ?_
      intro g _
      rw [sumBy_cons]
      by_cases hd : d.groupValue = g <;> simp [hd]
    rw [hmap, sum_map_add,
      sum_indicator gs d.groupValue d.value hnd (hcov d (List.mem_cons_self _ _)),
      ih hrest]
    simp

/-- C2: for every heatmap matrix transform output and every group with a
totals entry, `grandTotal` is the sum of the values of exactly the data
points of that group (the transform's points, which contain no synthetic
total entries — totals rows/columns are spliced into the axis hierarchies
only); every recorded `rowTotalsByX` entry is the sum over that group's
points with the given `xValue` (symmetrically for `colTotalsByY`); every
output group has a totals entry; and `overallGrandTotal` is the sum over
all points, which equals the sum of the per-group grand totals. -/
theorem heatmap_totals_match_points (matrix : HeatmapMatrix)
    (settings : Option HeatmapSettingsCard) :
    (∀ g t, mapGet (heatmapTransformMatrix matrix settings).totalsByGroup g = some t →
      t.grandTotal = sumBy (heatmapTransformMatrix matrix settings).dataPoints
        (fun dp => decide (dp.groupValue = g)) ∧
      (∀ x s, mapGet t.rowTotalsByX x = some s →
        s = sumBy (heatmapTransformMatrix matrix settings).dataPoints
          (fun dp => decide (dp.groupValue = g ∧ dp.xValue = x))) ∧
      (∀ y s, mapGet t.colTotalsByY y = some s →
        s = sumBy (heatmapTransformMatrix matrix settings).dataPoints
          (fun dp => decide (dp.groupValue = g ∧ dp.yValue = y)))) ∧
    (∀ g ∈ (heatmapTransformMatrix matrix settings).groups,
      (mapGet (heatmapTransformMatrix matrix settings).totalsByGroup g).isSome) ∧
    (heatmapTransformMatrix matrix settings).overallGrandTotal =
      ((heatmapTransformMatrix matrix settings).dataPoints.map DataPoint.value).sum ∧
    (heatmapTransformMatrix matrix settings).overallGrandTotal =
      ((heatmapTransformMatrix matrix settings).groups.map (fun g =>
        ((mapGet (heatmapTransformMatrix matrix settings).totalsByGroup g).map
          HeatmapGroupTotals.grandTotal).getD 0)).sum := by
  have htot : (heatmapTransformMatrix matrix settings).totalsByGroup =
      heatmapTotalsByGroup matrix := rfl
  have hpts : (heatmapTransformMatrix matrix settings).dataPoints =
      (heatmapEmitted matrix).2.points := rfl
  have hgrp : (heatmapTransformMatrix matrix settings).groups =
      heatmapGroupNames matrix := rfl
  have hov : (heatmapTransformMatrix matrix settings).overallGrandTotal =
      (computeTotals (heatmapEmitted matrix).2.points).2 := rfl
  have hfix := heatmap_points_groupValue matrix
  have hcongr : ∀ g, sumBy (heatmapEmitted matrix).2.points
      (fun dp => decide (totalsGroupKey dp.groupValue = g)) =
      sumBy (heatmapEmitted matrix).2.points
        (fun dp => decide (dp.groupValue = g)) := by
    intro g
    refine sumBy_congr _ _ _ ?_
    intro dp hdp
    rw [(hfix dp hdp).2]
  have hcongrx : ∀ g (f : DataPoint → String) (x : String),
      sumBy (heatmapEmitted matrix).2.points
        (fun dp => decide (totalsGroupKey dp.groupValue = g ∧ f dp = x)) =
      sumBy (heatmapEmitted matrix).2.points
        (fun dp => decide (dp.groupValue = g ∧ f dp = x)) := by
    intro g f x
    refine sumBy_congr _ _ _ ?_
    intro dp hdp
    rw [(hfix dp hdp).2]
  refine ⟨?_, ?_, ?_, ?_⟩
  · intro g t ht
    rw [htot] at ht
    obtain ⟨hgrand, hrow, _, hcol, _⟩ := (heatmapTotalsByGroup_spec matrix).1 g t ht
    refine ⟨?_, ?_, ?_⟩
    · rw [hpts, hgrand, hcongr g]
    · intro x s hxs
      have h1 := hrow x
      rw [hxs] at h1
      simp only [Option.getD_some] at h1
      rw [hpts, h1, hcongrx g DataPoint.xValue x]
    · intro y s hys
      have h1 := hcol y
      rw [hys] at h1
      simp only [Option.getD_some] at h1
      rw [hpts, h1, hcongrx g DataPoint.yValue y]
  · intro g hg
    rw [hgrp] at hg
    rw [htot]
    exact (heatmapTotalsByGroup_spec matrix).2 g hg
  · rw [hov, hpts]
    exact (computeTotals_spec _).1
  · rw [hov, hgrp, htot]
    have hterm : ∀ g ∈ heatmapGroupNames matrix,
        ((mapGet (heatmapTotalsByGroup matrix) g).map
          HeatmapGroupTotals.grandTotal).getD 0 =
        sumBy (heatmapEmitted matrix).2.points
          (fun dp => decide (dp.groupValue = g)) := by
      intro g hg
      have hsome := (heatmapTotalsByGroup_spec matrix).2 g hg
      obtain ⟨t, ht⟩ := Option.isSome_iff_exists.mp hsome
      rw [ht]
      have hgrand := ((heatmapTotalsByGroup_spec matrix).1 g t ht).1
      show t.grandTotal = _
      rw [hgrand, hcongr g]
    rw [List.map_congr_left hterm]
    rw [sum_sumBy_groups _ _ (heatmapGroupNames_nodup matrix)
      (fun dp hdp => (hfix dp hdp).1)]
    exact (computeTotals_spec _).1

/-! ## Concrete example inputs for the heatmap claims -/

/-- A column source carrying the `xAxis` role. -/
def exSrcX : SourceMeta := ⟨["xAxis"], none, none, none⟩

/-- A row source carrying the `yAxis` role. -/
def exSrcY : SourceMeta := ⟨["yAxis"], none, none, none⟩

/-- Column tree with two leaf columns labelled `c1`, `c2`. -/
def exColRoot : MatrixNode :=
  MatrixNode.node none [] false []
    [MatrixNode.node (some 0) [⟨0, JSVal.vstr "c1"⟩] false [] [],
     MatrixNode.node (some 0) [⟨0, JSVal.vstr "c2"⟩] false [] []]

/-- Row tree with one leaf row `r1` holding measure cells `5` and `-3`. -/
def exRowRoot : MatrixNode :=
  MatrixNode.node none [] false []
    [MatrixNode.node (some 0) [⟨0, JSVal.vstr "r1"⟩] false
      [(0, ⟨JSVal.vnum 5, JSVal.vnull, none⟩),
       (1, ⟨JSVal.vnum (-3), JSVal.vnull, none⟩)] []]

/-- A small 1×2 matrix data view with values `5` and `-3`. -/
def exMatrix : HeatmapMatrix :=
  { rows := ⟨exRowRoot, [⟨[exSrcY]⟩]⟩,
    columns := ⟨exColRoot, [⟨[exSrcX]⟩]⟩,
    valueSources := [⟨[], none, none, none⟩] }

/-- C2 witness: on the concrete 1×2 example, group `"All"` (a member of the
output's groups, checked by `decide`) has a totals entry whose grand total
is the filtered point sum, and the overall grand total is the sum of the
per-group grand totals — all obtained from the theorem instance. -/
theorem heatmap_totals_match_points_witness :
    (∃ t, mapGet (heatmapTransformMatrix exMatrix none).totalsByGroup "All" =
        some t ∧
      t.grandTotal = sumBy (heatmapTransformMatrix exMatrix none).dataPoints
        (fun dp => decide (dp.groupValue = "All"))) ∧
    (heatmapTransformMatrix exMatrix none).overallGrandTotal =
      ((heatmapTransformMatrix exMatrix none).groups.map (fun g =>
        ((mapGet (heatmapTransformMatrix exMatrix none).totalsByGroup g).map
          HeatmapGroupTotals.grandTotal).getD 0)).sum := by
  have hg : "All" ∈ (heatmapTransformMatrix exMatrix none).groups := by decide
  have hsome := (heatmap_totals_match_points exMatrix none).2.1 "All" hg
  obtain ⟨t, ht⟩ := Option.isSome_iff_exists.mp hsome
  exact ⟨⟨t, ht, ((heatmap_totals_match_points exMatrix none).1 "All" t ht).1⟩,
    (heatmap_totals_match_points exMatrix none).2.2.2⟩

/-- C9: in every heatmap matrix transform output, `maxValue` (initialized to
`0`) is never negative; `minValue` is `0` when no data point has a strictly
positive value; and whenever some data point is strictly positive,
`minValue` is itself a strictly positive emitted value and a lower bound of
all strictly positive point values — i.e. the smallest strictly positive
data-point value, unaffected by zero or negative values. -/
theorem heatmap_min_max_values (matrix : HeatmapMatrix)
    (settings : Option HeatmapSettingsCard) :
    0 ≤ (heatmapTransformMatrix matrix settings).maxValue ∧
    ((∀ dp ∈ (heatmapTransformMatrix matrix settings).dataPoints,
        dp.value ≤ 0) →
      (heatmapTransformMatrix matrix settings).minValue = 0) ∧
    (∀ dp ∈ (heatmapTransformMatrix matrix settings).dataPoints,
      0 < dp.value →
        0 < (heatmapTransformMatrix matrix settings).minValue ∧
        (heatmapTransformMatrix matrix settings).minValue ≤ dp.value ∧
        ∃ dp' ∈ (heatmapTransformMatrix matrix settings).dataPoints,
          0 < dp'.value ∧
            (heatmapTransformMatrix matrix settings).minValue = dp'.value) := by
  have hpts : (heatmapTransformMatrix matrix settings).dataPoints =
      (heatmapEmitted matrix).2.points := rfl
  have hmax : (heatmapTransformMatrix matrix settings).maxValue =
      (heatmapEmitted matrix).2.maxValue := rfl
  have hmin : (heatmapTransformMatrix matrix settings).minValue =
      ((heatmapEmitted matrix).2.minValueOpt).getD 0 := rfl
  obtain ⟨h0, _, hminspec⟩ := heatmapEmitted_minmax matrix
  refine ⟨by rw [hmax]; exact h0, ?_, ?_⟩
  · intro hall
    rw [hpts] at hall
    rw [hmin]
    rcases hcase : (heatmapEmitted matrix).2.minValueOpt with _ | m
    · rfl
    · rw [hcase] at hminspec
      obtain ⟨hm0, ⟨w, hwmem, hwval⟩, _⟩ := hminspec
      have := hall w hwmem
      rw [hwval] at this
      exact absurd hm0 (not_lt.mpr this)
  · intro dp hdp hpos
    rw [hpts] at hdp
    rcases hcase : (heatmapEmitted matrix).2.minValueOpt with _ | m
    · rw [hcase] at hminspec
      exact absurd hpos (hminspec dp hdp)
    · rw [hcase] at hminspec
      obtain ⟨hm0, ⟨w, hwmem, hwval⟩, hle⟩ := hminspec
      have hmineq : (heatmapTransformMatrix matrix settings).minValue = m := by
        rw [hmin, hcase]; rfl
      refine ⟨by rw [hmineq]; exact hm0,
        by rw [hmineq]; exact hle dp hdp hpos, ?_⟩
      refine ⟨w, by rw [hpts]; exact hwmem, ?_, by rw [hmineq, hwval]⟩
      rw [hwval]
      exact hm0

/-- C9 witness: the theorem instance at the concrete 1×2 example (point
values `5` and `-3`): `maxValue` is non-negative and the positive point `5`
forces `0 < minValue ≤ 5`. -/
theorem heatmap_min_max_values_witness :
    0 ≤ (heatmapTransformMatrix exMatrix none).maxValue ∧
    (0 < (heatmapTransformMatrix exMatrix none).minValue ∧
      (heatmapTransformMatrix exMatrix none).minValue ≤
        (⟨"c1", "r1", 5, "All", 0⟩ : DataPoint).value) := by
  have h := heatmap_min_max_values exMatrix none
  have hmem : (⟨"c1", "r1", 5, "All", 0⟩ : DataPoint) ∈
      (heatmapTransformMatrix exMatrix none).dataPoints := by decide
  have hpos : (0 : ℚ) < (⟨"c1", "r1", 5, "All", 0⟩ : DataPoint).value := by
    norm_num
  have h3 := h.2.2 _ hmem hpos
  exact ⟨h.1, h3.1, h3.2.1⟩

/-! ## Inline-labels-line transformer: row values and the aggregation
accumulator (InlineLabelsLineTransformer.ts lines 210-276) -/

/-- Per-row primary value (source lines 239-244): `Number(values[i])` as the
base; a present (non-null, non-undefined) highlight entry overrides it with
`Number(highlights[i])`; a non-finite result is `NaN` (`none`). -/
def inlineRowValue (values : List JSVal) (highlights : Option (List JSVal))
    (i : Nat) : Option ℚ :=
  let rawValue := jsToNumber (values.getD i JSVal.vnull)
  match highlights with
  | some hl =>
    if hl.getD i JSVal.vnull ≠ JSVal.vnull then jsToNumber (hl.getD i JSVal.vnull)
    else rawValue
  | none => rawValue

/-- One entry of the accumulator map `acc` (source line 210); `value` and
`value2` are `NaN` when `none`. -/
structure InlineAccEntry where
  xValue : String
  seriesKey : String
  groupValue : String
  value : Option ℚ
  value2 : Option ℚ
deriving DecidableEq, Repr

/-- Merge of duplicate contributions (source lines 264-273): sum two finite
values; a finite value fills in over a prior `NaN`; otherwise the previous
value is kept. -/
def inlineAccMerge (prevV newV : Option ℚ) : Option ℚ :=
  match prevV, newV with
  | some a, some b => some (a + b)
  | none, some b => some b
  | pv, _ => pv

/-- One accumulator step (source lines 253-274): first sight stores the
entry, a repeated composite key merges `value` and `value2`. -/
def inlineAccStep (acc : List (String × InlineAccEntry))
    (row : String × InlineAccEntry) : List (String × InlineAccEntry) :=
  match mapGet acc row.1 with
  | none => mapSet acc row.1 row.2
  | some prev => mapSet acc row.1
      { prev with value := inlineAccMerge prev.value row.2.value,
                  value2 := inlineAccMerge prev.value2 row.2.value2 }

/-- The aggregation accumulator: the fold of `inlineAccStep` over the
`(compositeKey, contribution)` stream of a transform call. -/
def inlineAccumulate (rows : List (String × InlineAccEntry)) :
    List (String × InlineAccEntry) :=
  rows.foldl inlineAccStep []

/-- C3: when a row carries a present numeric highlight value, the data point
value produced for that row is the highlight value alone, never
`base + highlight`.  Heatmap case (`heatmapCellValue`, the exact value
computation of `transformMatrix` lines 400-403, used verbatim by
`emitCell`): a `vnum q` highlight makes the emitted cell value `q`
regardless of the base.  Inline-labels-line case (`inlineRowValue`, lines
239-244): a `vnum q` highlight entry makes the row value `some q` regardless
of the base column.  The third conjunct restates the heatmap fact at the
emitted-point level: the point `emitCell` appends for such a cell carries
value `q`. -/
theorem highlight_override_law :
    (∀ (nv : MatrixNodeValue) (q : ℚ), nv.highlight = JSVal.vnum q →
      heatmapCellValue nv = q) ∧
    (∀ (values hl : List JSVal) (i : Nat) (q : ℚ),
      hl.getD i JSVal.vnull = JSVal.vnum q →
      inlineRowValue values (some hl) i = some q) ∧
    (∀ (measureCount : Nat) (keys : List String) (rowKey groupName : String)
        (s : EmitState) (cell : Nat × MatrixNodeValue) (q : ℚ),
      cell.2.highlight = JSVal.vnum q →
      emitCell measureCount keys rowKey groupName s cell = s ∨
      ∃ colKey,
        (emitCell measureCount keys rowKey groupName s cell).points =
          s.points ++
            [{ xValue := colKey, yValue := rowKey, value := q,
               groupValue := groupName, index := s.nextIdx }]) := by
  have hcell : ∀ (nv : MatrixNodeValue) (q : ℚ), nv.highlight = JSVal.vnum q →
      heatmapCellValue nv = q := by
    intro nv q h
    unfold heatmapCellValue
    rw [h]
    simp [jsToNumber, jsOr0]
  refine ⟨hcell, ?_, ?_⟩
  · intro values hl i q h
    show (if hl.getD i JSVal.vnull ≠ JSVal.vnull then
        jsToNumber (hl.getD i JSVal.vnull)
      else jsToNumber (values.getD i JSVal.vnull)) = some q
    rw [h]
    simp [jsToNumber]
  · intro measureCount keys rowKey groupName s cell q h
    unfold emitCell
    by_cases hv : cell.2.valueSourceIndex.getD 0 ≠ 0
    · left; simp [hv]
    · simp only [hv, reduceIte]
      rcases hcol : keys.get? (cell.1 / measureCount) with _ | colKey
      · left; rfl
      · by_cases hk : colKey = ""
        · left; simp [hk]
        · right
          refine ⟨colKey, ?_⟩
          simp only [hk, reduceIte, if_neg hk]
          rw [hcell cell.2 q h]

/-- C3 witness: a cell with base `2` and highlight `3` yields point value
`3` in the heatmap, and a row with base `2` and highlight `3` yields value
`3` in the inline-labels-line transformer. -/
theorem highlight_override_law_witness :
    heatmapCellValue ⟨JSVal.vnum 2, JSVal.vnum 3, none⟩ = 3 ∧
    inlineRowValue [JSVal.vnum 2] (some [JSVal.vnum 3]) 0 = some 3 :=
  ⟨highlight_override_law.1 ⟨JSVal.vnum 2, JSVal.vnum 3, none⟩ 3 rfl,
   highlight_override_law.2.1 [JSVal.vnum 2] [JSVal.vnum 3] 0 3 rfl⟩

/-- C4 counterexample: feeding one non-highlighted contribution (base `5`)
and one highlighted contribution (base `7`, highlight `3`) under the same
composite key stores `5 + 3 = 8`, not the highlight value `3` — the
accumulator sums the two rows' (post-override) values instead of letting
the highlight win across rows. -/
theorem inline_agg_highlight_summed :
    (mapGet (inlineAccumulate
      [("k", ⟨"x", "s", "g", inlineRowValue [JSVal.vnum 5] none 0, none⟩),
       ("k", ⟨"x", "s", "g",
         inlineRowValue [JSVal.vnum 7] (some [JSVal.vnum 3]) 0, none⟩)])
      "k").map InlineAccEntry.value = some (some (5 + 3)) ∧
    ¬ ((8 : ℚ) = 3) := by
  constructor
  · norm_num +decide [inlineAccumulate, inlineAccStep, inlineAccMerge,
      inlineRowValue, jsToNumber, mapGet, mapSet, List.find?]
  · norm_num

/-- C4 (amended): the aggregation accumulator sums finite contributions per
composite key.  Two highlight-null finite base values yield their sum.  One
non-highlighted finite base `b1` plus one highlighted contribution
(highlight `h`) yield `b1 + h`: the highlight overrides only its own row's
base, and the stored value equals the highlight value alone exactly when the
non-highlighted contribution is not finite (`NaN` base).  All of this also
holds with a row of another key interleaved (multi-row scenario), which
accumulates independently. -/
theorem inline_aggregation_laws (k k2 x s g x2 s2 g2 : String)
    (b1 b2 bh h c : ℚ) (hne : k2 ≠ k) :
    (mapGet (inlineAccumulate
      [(k, ⟨x, s, g, inlineRowValue [JSVal.vnum b1] none 0, none⟩),
       (k, ⟨x, s, g, inlineRowValue [JSVal.vnum b2] none 0, none⟩)]) k).map
      InlineAccEntry.value = some (some (b1 + b2)) ∧
    (mapGet (inlineAccumulate
      [(k, ⟨x, s, g, inlineRowValue [JSVal.vnum b1] none 0, none⟩),
       (k, ⟨x, s, g,
         inlineRowValue [JSVal.vnum bh] (some [JSVal.vnum h]) 0, none⟩)]) k).map
      InlineAccEntry.value = some (some (b1 + h)) ∧
    (mapGet (inlineAccumulate
      [(k, ⟨x, s, g, inlineRowValue [JSVal.vnan] none 0, none⟩),
       (k, ⟨x, s, g,
         inlineRowValue [JSVal.vnum bh] (some [JSVal.vnum h]) 0, none⟩)]) k).map
      InlineAccEntry.value = some (some h) ∧
    (mapGet (inlineAccumulate
      [(k, ⟨x, s, g, inlineRowValue [JSVal.vnum b1] none 0, none⟩),
       (k2, ⟨x2, s2, g2, inlineRowValue [JSVal.vnum c] none 0, none⟩),
       (k, ⟨x, s, g,
         inlineRowValue [JSVal.vnum bh] (some [JSVal.vnum h]) 0, none⟩)]) k).map
      InlineAccEntry.value = some (some (b1 + h)) ∧
    (mapGet (inlineAccumulate
      [(k, ⟨x, s, g, inlineRowValue [JSVal.vnum b1] none 0, none⟩),
       (k2, ⟨x2, s2, g2, inlineRowValue [JSVal.vnum c] none 0, none⟩),
       (k, ⟨x, s, g,
         inlineRowValue [JSVal.vnum bh] (some [JSVal.vnum h]) 0, none⟩)]) k2).map
      InlineAccEntry.value = some (some c) := by
  have hvv : ∀ q : ℚ, (JSVal.vnum q = JSVal.vnull) = False := by
    intro q
    simp
  refine ⟨?_, ?_, ?_, ?_, ?_⟩ <;>
    simp [inlineAccumulate, inlineAccStep, inlineAccMerge, inlineRowValue,
      jsToNumber, mapGet, mapSet, List.find?, hne, Ne.symm hne, hvv]

/-- C4 witness: the amended laws instantiated at concrete inputs: bases
`5`/`2` sum to `7`; non-highlighted `5` with highlighted `3` stores `8`;
a `NaN` base lets the highlight `3` win; and the interleaved-key scenario
stores `5 + 3` at one key and `4` at the other. -/
theorem inline_aggregation_laws_witness :
    (mapGet (inlineAccumulate
      [("k", ⟨"x", "s", "g", inlineRowValue [JSVal.vnum 5] none 0, none⟩),
       ("k", ⟨"x", "s", "g", inlineRowValue [JSVal.vnum 2] none 0, none⟩)])
      "k").map InlineAccEntry.value = some (some (5 + 2)) ∧
    (mapGet (inlineAccumulate
      [("k", ⟨"x", "s", "g", inlineRowValue [JSVal.vnan] none 0, none⟩),
       ("k", ⟨"x", "s", "g",
         inlineRowValue [JSVal.vnum 9] (some [JSVal.vnum 3]) 0, none⟩)])
      "k").map InlineAccEntry.value = some (some 3) ∧
    (mapGet (inlineAccumulate
      [("k", ⟨"x", "s", "g", inlineRowValue [JSVal.vnum 5] none 0, none⟩),
       ("q", ⟨"x2", "s2", "g2", inlineRowValue [JSVal.vnum 4] none 0, none⟩),
       ("k", ⟨"x", "s", "g",
         inlineRowValue [JSVal.vnum 9] (some [JSVal.vnum 3]) 0, none⟩)])
      "k").map InlineAccEntry.value = some (some (5 + 3)) ∧
    (mapGet (inlineAccumulate
      [("k", ⟨"x", "s", "g", inlineRowValue [JSVal.vnum 5] none 0, none⟩),
       ("q", ⟨"x2", "s2", "g2", inlineRowValue [JSVal.vnum 4] none 0, none⟩),
       ("k", ⟨"x", "s", "g",
         inlineRowValue [JSVal.vnum 9] (some [JSVal.vnum 3]) 0, none⟩)])
      "q").map InlineAccEntry.value = some (some 4) := by
  have h := inline_aggregation_laws "k" "q" "x" "s" "g" "x2" "s2" "g2"
    5 2 9 3 4 (by decide)
  obtain ⟨h1, _, h3, h4, h5⟩ := h
  exact ⟨h1, h3, h4, h5⟩

/-! ## Calendar model for the JS `Date` API

`Date.UTC`/`getUTCFullYear` are modelled on the proleptic Gregorian
calendar with the civil-from-days/days-from-civil algorithms; a JS `Date`
is valid iff its time value is within `±8.64e15` ms. -/

/-- Truncation toward zero (JS `ToIntegerOrInfinity` on a finite number). -/
def ratTrunc (q : ℚ) : Int := Int.div q.num (q.den : Int)

/-- Days since 1970-01-01 of the civil date `(y, m, d)` with `m ∈ [1, 12]`;
linear in `d`, so day overflow rolls over exactly like `Date.UTC`. -/
def daysFromCivil (y m d : Int) : Int :=
  let y' := if m ≤ 2 then y - 1 else y
  let era := Int.fdiv y' 400
  let yoe := y' - era * 400
  let mp := Int.emod (m + 9) 12
  let doy := Int.fdiv (153 * mp + 2) 5 + d - 1
  let doe := yoe * 365 + Int.fdiv yoe 4 - Int.fdiv yoe 100 + doy
  era * 146097 + doe - 719468

/-- Civil year of a day number (days since 1970-01-01). -/
def civilYearFromDays (z0 : Int) : Int :=
  let z := z0 + 719468
  let era := Int.fdiv z 146097
  let doe := z - era * 146097
  let yoe := Int.fdiv (doe - Int.fdiv doe 1460 + Int.fdiv doe 36524 -
    Int.fdiv doe 146096) 365
  let y := yoe + era * 400
  let doy := doe - (365 * yoe + Int.fdiv yoe 4 - Int.fdiv yoe 100)
  let mp := Int.fdiv (5 * doy + 2) 153
  let m := if mp < 10 then mp + 3 else mp - 9
  if m ≤ 2 then y + 1 else y

/-- Largest valid absolute JS time value (`8.64e15` ms). -/
def maxJsTimeMs : Int := 8640000000000000

/-- `Date.UTC(year, monthIndex, day)` in ms: the historical two-digit-year
mapping (`0-99 → 1900-1999`) applies, and an out-of-range result is `NaN`
(`none`). -/
def dateUTCms (year monthIndex day : Int) : Option Int :=
  let y := if 0 ≤ year ∧ year ≤ 99 then year + 1900 else year
  let ms := daysFromCivil y (monthIndex + 1) day * 86400000
  if ms.natAbs ≤ maxJsTimeMs.natAbs then some ms else none

/-- `new Date(ms).getUTCFullYear()` for a finite ms value. -/
def msToUTCYear (q : ℚ) : Int :=
  civilYearFromDays (Int.fdiv (ratTrunc q) 86400000)

/-- Model of `Date.parse` / `new Date(string)`: ISO `YYYY-MM-DD` dates parse
to their UTC midnight; every other string is modelled as unparseable
(`NaN`).  The data this repository's detectors sample carries dates either
as `Date` objects, epoch numbers, or ISO strings, so this conservative
model covers the exercised cases. -/
def jsDateParse (s : String) : Option Int :=
  match s.toList with
  | [y1, y2, y3, y4, d1, m1, m2, d2, dd1, dd2] =>
    if [y1, y2, y3, y4, m1, m2, dd1, dd2].all Char.isDigit ∧
        d1 = '-' ∧ d2 = '-' then
      let y := (digitsToNat [y1, y2, y3, y4] : Int)
      let m := (digitsToNat [m1, m2] : Int)
      let d := (digitsToNat [dd1, dd2] : Int)
      if 1 ≤ m ∧ m ≤ 12 ∧ 1 ≤ d ∧ d ≤ 31 then dateUTCms y (m - 1) d
      else none
    else none
  | _ => none

/-! ## Date-axis detection (InlineLabelsLineTransformer.ts lines 21-96) -/

/-- `MIN_MS_TIMESTAMP_FOR_DATE_AXIS = 1000 * 1000 * 1000 * 100` (`1e11`). -/
def MIN_MS_TIMESTAMP_FOR_DATE_AXIS : ℚ := 1000 * 1000 * 1000 * 100

/-- `tryParseDateMsHeuristic` (source lines 27-44): `null`/`undefined` fail;
a `Date` yields its time value; a finite number below `1e11` fails (years,
ranks, ids) and one at or above it succeeds when it is a representable time
value (kept as the original number); `NaN` fails; a boolean coerces through
`new Date(value)` to `0`/`1`; a string parses via `new Date(string)`. -/
def tryParseDateMsHeuristic : JSVal → Option ℚ
  | .vnull => none
  | .vdate ms => some (ms : ℚ)
  | .vnum v =>
    if v < MIN_MS_TIMESTAMP_FOR_DATE_AXIS then none
    else if (ratTrunc v).natAbs ≤ maxJsTimeMs.natAbs then some v else none
  | .vnan => none
  | .vbool b => some (if b then 1 else 0)
  | .vstr s => (jsDateParse s).map (fun ms => (ms : ℚ))

/-- One category column of a categorical data view, with the pieces the
date-axis detector reads (`source.type.dateTime` / `type.temporal` and the
value array). -/
structure CatColumn where
  typeDateTime : Bool
  typeTemporal : Bool
  values : List JSVal
deriving DecidableEq, Repr

/-- The per-column sampling scan (source lines 69-79): over the first `500`
values, count successful parses and track the min/max parsed ms
(`Infinity`/`-Infinity` sentinels as `none`). -/
def dateAxisColScan (values : List JSVal) : Nat × Option ℚ × Option ℚ :=
  (values.take 500).foldl
    (fun acc v =>
      match tryParseDateMsHeuristic v with
      | none => acc
      | some ms =>
        (acc.1 + 1,
         some (match acc.2.1 with
               | none => ms
               | some m => if ms < m then ms else m),
         some (match acc.2.2 with
               | none => ms
               | some m => if ms > m then ms else m)))
    (0, none, none)

/-- `minRangeMs = 28 * 24 * 60 * 60 * 1000` (28 days). -/
def minRangeMs : ℚ := 28 * 24 * 60 * 60 * 1000

/-- The two-threshold candidate check of one column (source lines 63-91):
`none` when the column is skipped (too few rows, parse ratio below 85%, or
range below 28 days / not finite), otherwise `some score`. -/
def dateAxisCandidate (categories : List CatColumn) (idx : Nat) : Option ℚ :=
  let values := ((categories.get? idx).map CatColumn.values).getD []
  let n := min values.length 500
  if n ≤ 1 then none
  else
    let scan := dateAxisColScan values
    let ratio : ℚ := (scan.1 : ℚ) / (n : ℚ)
    if ratio < 85 / 100 then none
    else
      match scan.2.1, scan.2.2 with
      | some mn, some mx =>
        if mx - mn < minRangeMs then none
        else some (ratio * 10 + min 10 ((mx - mn) / minRangeMs))
      | _, _ => none

/-- Whether a column is metadata-typed as temporal (source lines 49-52). -/
def catTyped (categories : List CatColumn) (idx : Nat) : Bool :=
  ((categories.get? idx).map
    (fun c => c.typeDateTime || c.typeTemporal)).getD false

/-- `detectDateAxisIndex` (source lines 46-96): best-scoring candidate among
the sampled columns, else the first metadata-typed temporal column, else
`-1`.  (An absent `categorical.categories` array behaves like the empty
list throughout.) -/
def detectDateAxisIndex (categories : List CatColumn)
    (xAxisIndices : List Nat) : Int :=
  if xAxisIndices.isEmpty then -1
  else
    let best := xAxisIndices.foldl
      (fun (best : Int × ℚ) idx =>
        match dateAxisCandidate categories idx with
        | none => best
        | some score =>
          if score > best.2 then ((idx : Int), score) else best)
      (-1, -1)
    if best.1 ≥ 0 then best.1
    else
      match (xAxisIndices.filter (catTyped categories)).head? with
      | some t => (t : Int)
      | none => -1

/-- Candidate scores are never negative (in fact at least `9.5`), so any
qualifying column beats the `-1` best-score sentinel. -/
theorem dateAxisCandidate_nonneg (categories : List CatColumn) (idx : Nat)
    (sc : ℚ) (h : dateAxisCandidate categories idx = some sc) : 0 ≤ sc := by
  simp only [dateAxisCandidate] at h
  split at h
  · exact absurd h (by simp)
  · split at h
    · exact absurd h (by simp)
    · rename_i hn hratio
      push_neg at hratio
      split at h
      · rename_i mn mx hmn hmx
        split at h
        · exact absurd h (by simp)
        · rename_i hrange
          push_neg at hrange
          injection h with h
          subst h
          have h1 : (0 : ℚ) ≤
              ((dateAxisColScan (((categories.get? idx).map
                CatColumn.values).getD [])).1 : ℚ) /
              ((min (((categories.get? idx).map CatColumn.values).getD
                []).length 500 : Nat) : ℚ) * 10 := by
            refine mul_nonneg (div_nonneg ?_ ?_) (by norm_num)
            · exact Nat.cast_nonneg _
            · exact Nat.cast_nonneg _
          have hmrpos : (0 : ℚ) < minRangeMs := by norm_num [minRangeMs]
          have h2 : (0 : ℚ) ≤ min 10 ((mx - mn) / minRangeMs) := by
            refine le_min (by norm_num) ?_
            exact div_nonneg (le_trans (le_of_lt hmrpos) hrange)
              (le_of_lt hmrpos)
          exact add_nonneg h1 h2
      · exact absurd h (by simp)

/-- Invariant of `detectDateAxisIndex`'s best-candidate fold. -/
def DetectInv (categories : List CatColumn) (processed : List Nat)
    (best : Int × ℚ) : Prop :=
  (best = (-1, -1) ∧ ∀ j ∈ processed, dateAxisCandidate categories j = none) ∨
  (∃ i ∈ processed, best.1 = (i : Int) ∧
    dateAxisCandidate categories i = some best.2 ∧
    ∀ j ∈ processed, ∀ sc, dateAxisCandidate categories j = some sc →
      sc ≤ best.2)

theorem detect_fold_inv (categories : List CatColumn) (xs : List Nat) :
    ∀ processed best, DetectInv categories processed best →
      DetectInv categories (processed ++ xs)
        (xs.foldl
          (fun (best : Int × ℚ) idx =>
            match dateAxisCandidate categories idx with
            | none => best
            | some score =>
              if score > best.2 then ((idx : Int), score) else best)
          best) := by
  induction xs with
  | nil => intro processed best h; simpa using h
  | cons x rest ih =>
    intro processed best h
    have hstep : DetectInv categories (processed ++ [x])
        (match dateAxisCandidate categories x with
         | none => best
         | some score =>
           if score > best.2 then ((x : Int), score) else best) := by
      rcases hcand : dateAxisCandidate categories x with _ | score
      · rcases h with ⟨hb, hall⟩ | ⟨i, hi, hb1, hb2, hb3⟩
        · left
          refine ⟨hb, ?_⟩
          intro j hj
          rcases List.mem_append.mp hj with hj | hj
          · exact hall j hj
          · simp only [List.mem_singleton] at hj; subst hj; exact hcand
        · right
          refine ⟨i, List.mem_append_left _ hi, hb1, hb2, ?_⟩
          intro j hj sc hsc
          rcases List.mem_append.mp hj with hj | hj
          · exact hb3 j hj sc hsc
          · simp only [List.mem_singleton] at hj
            subst hj
            rw [hcand] at hsc
            exact absurd hsc (by simp)
      · show DetectInv categories (processed ++ [x])
            (if score > best.2 then ((x : Int), score) else best)
        by_cases hgt : score > best.2
        · rw [if_pos hgt]
          right
          refine ⟨x, List.mem_append_right _ (List.mem_singleton.mpr rfl),
            rfl, hcand, ?_⟩
          intro j hj sc hsc
          rcases List.mem_append.mp hj with hj | hj
          · rcases h with ⟨hb, hall⟩ | ⟨i, hi, hb1, hb2, hb3⟩
            · rw [hall j hj] at hsc
              exact absurd hsc (by simp)
            · exact le_trans (hb3 j hj sc hsc) (le_of_lt hgt)
          · simp only [List.mem_singleton] at hj
            subst hj
            rw [hcand] at hsc
            injection hsc with hsc
            exact le_of_eq hsc.symm
        · rw [if_neg hgt]
          rcases h with ⟨hb, hall⟩ | ⟨i, hi, hb1, hb2, hb3⟩
          · exfalso
            have hnn := dateAxisCandidate_nonneg categories x score hcand
            rw [hb] at hgt
            simp only [not_lt] at hgt
            have : (0 : ℚ) ≤ -1 := le_trans hnn hgt
            norm_num at this
          · right
            refine ⟨i, List.mem_append_left _ hi, hb1, hb2, ?_⟩
            intro j hj sc hsc
            rcases List.mem_append.mp hj with hj | hj
            · exact hb3 j hj sc hsc
            · simp only [List.mem_singleton] at hj
              subst hj
              rw [hcand] at hsc
              injection hsc with hsc
              subst hsc
              exact not_lt.mp hgt
    have hres := ih (processed ++ [x]) _ hstep
    simpa using hres

/-- Truncation of every column to its first 500 values. -/
def truncCatValues (categories : List CatColumn) : List CatColumn :=
  categories.map (fun c => { c with values := c.values.take 500 })

theorem dateAxisCandidate_trunc (categories : List CatColumn) (idx : Nat) :
    dateAxisCandidate (truncCatValues categories) idx =
      dateAxisCandidate categories idx := by
  have hval : ((Option.map CatColumn.values
        ((truncCatValues categories).get? idx)).getD []) =
      (((Option.map CatColumn.values (categories.get? idx)).getD []).take
        500) := by
    unfold truncCatValues
    rw [List.get?_map]
    rcases categories.get? idx with _ | c <;> rfl
  simp only [dateAxisCandidate]
  rw [hval]
  have hlen : ((((Option.map CatColumn.values
        (categories.get? idx)).getD []).take 500).length) ⊓ 500 =
      ((Option.map CatColumn.values (categories.get? idx)).getD
        []).length ⊓ 500 := by
    rw [List.length_take]
    omega
  have hscan : dateAxisColScan
      (((Option.map CatColumn.values (categories.get? idx)).getD []).take
        500) =
      dateAxisColScan ((Option.map CatColumn.values
        (categories.get? idx)).getD []) := by
    unfold dateAxisColScan
    rw [List.take_take]
    norm_num
  rw [hlen, hscan]

theorem catTyped_trunc (categories : List CatColumn) (idx : Nat) :
    catTyped (truncCatValues categories) idx = catTyped categories idx := by
  unfold catTyped truncCatValues
  rw [List.get?_map]
  rcases categories.get? idx with _ | c <;> rfl

/-- Unfolding of `detectDateAxisIndex` for a non-empty candidate list. -/
theorem detectDateAxisIndex_eq (categories : List CatColumn) (xs : List Nat)
    (h : ¬ xs.isEmpty = true) :
    detectDateAxisIndex categories xs =
      (if (xs.foldl
          (fun (best : Int × ℚ) idx =>
            match dateAxisCandidate categories idx with
            | none => best
            | some score =>
              if score > best.2 then ((idx : Int), score) else best)
          (-1, -1)).1 ≥ 0 then
        (xs.foldl
          (fun (best : Int × ℚ) idx =>
            match dateAxisCandidate categories idx with
            | none => best
            | some score =>
              if score > best.2 then ((idx : Int), score) else best)
          (-1, -1)).1
      else
        match (xs.filter (catTyped categories)).head? with
        | some t => (t : Int)
        | none => -1) := by
  unfold detectDateAxisIndex
  rw [if_neg h]

/-- C6 (amended): date-axis column detection examines at most 500 rows per
candidate column (truncating every candidate column to its first 500 values
does not change the result); the sampling heuristic accepts a column only
when at least 85% of the sampled values parse as dates AND they span at
least 28 days (`dateAxisCandidate` returns a score exactly then), and when
several columns qualify the detector returns a qualifying column of maximal
score; but when NO column qualifies, the detector falls back to the first
metadata-typed temporal column — accepting it as the date axis without the
85%/28-day thresholds — and only returns `-1` when there is none. -/
theorem detect_date_axis_rules (categories : List CatColumn)
    (xs : List Nat) :
    detectDateAxisIndex (truncCatValues categories) xs =
      detectDateAxisIndex categories xs ∧
    ((∃ i ∈ xs, (dateAxisCandidate categories i).isSome) →
      ∃ i ∈ xs, ∃ score, detectDateAxisIndex categories xs = (i : Int) ∧
        dateAxisCandidate categories i = some score ∧
        ∀ j ∈ xs, ∀ sc, dateAxisCandidate categories j = some sc →
          sc ≤ score) ∧
    ((∀ i ∈ xs, dateAxisCandidate categories i = none) →
      detectDateAxisIndex categories xs =
        (match (xs.filter (catTyped categories)).head? with
         | some t => (t : Int)
         | none => -1)) := by
  have hfold := detect_fold_inv categories xs [] (-1, -1)
    (Or.inl ⟨rfl, by intro j hj; simp at hj⟩)
  simp only [List.nil_append] at hfold
  refine ⟨?_, ?_, ?_⟩
  · -- sampling bound: truncation changes nothing
    unfold detectDateAxisIndex
    by_cases hxs : xs.isEmpty
    · rw [if_pos hxs, if_pos hxs]
    · rw [if_neg hxs, if_neg hxs]
      have hstep : (fun (best : Int × ℚ) idx =>
          match dateAxisCandidate (truncCatValues categories) idx with
          | none => best
          | some score =>
            if score > best.2 then ((idx : Int), score) else best) =
        (fun (best : Int × ℚ) idx =>
          match dateAxisCandidate categories idx with
          | none => best
          | some score =>
            if score > best.2 then ((idx : Int), score) else best) := by
        funext b i
        rw [dateAxisCandidate_trunc]
      have hty : catTyped (truncCatValues categories) =
          catTyped categories := by
        funext i
        exact catTyped_trunc categories i
      rw [hstep, hty]
  · -- heuristic acceptance with maximal score
    intro ⟨i0, hi0, hsome⟩
    rcases hfold with ⟨hb, hall⟩ | ⟨i, hi, hb1, hb2, hb3⟩
    · rw [hall i0 hi0] at hsome
      simp at hsome
    · refine ⟨i, hi, _, ?_, hb2, hb3⟩
      have hne : ¬ xs.isEmpty = true := by
        rcases xs with _ | ⟨y, ys⟩
        · simp at hi
        · simp
      rw [detectDateAxisIndex_eq categories xs hne, hb1,
        if_pos (Int.ofNat_nonneg i)]
  · -- no qualifying column: metadata fallback
    intro hnone
    by_cases hxs : xs.isEmpty
    · have : xs = [] := List.isEmpty_iff.mp hxs
      subst this
      rfl
    · rw [detectDateAxisIndex_eq categories xs hxs]
      rcases hfold with ⟨hb, _⟩ | ⟨i, hi, hb1, hb2, _⟩
      · rw [hb]
        norm_num
      · rw [hnone i hi] at hb2
        exact absurd hb2 (by simp)

/-- C6 witness: for a column of two `Date` values 28 days apart the
heuristic qualifies (checked by evaluation), and the theorem instance
returns that column with a maximal score; the truncation-invariance part is
also instantiated. -/
theorem detect_date_axis_rules_witness :
    (∃ i ∈ [0], ∃ score,
      detectDateAxisIndex [⟨true, false, [JSVal.vdate 0,
        JSVal.vdate 2419200000]⟩] [0] = (i : Int) ∧
      dateAxisCandidate [⟨true, false, [JSVal.vdate 0,
        JSVal.vdate 2419200000]⟩] 0 = some score ∧
      ∀ j ∈ [0], ∀ sc, dateAxisCandidate [⟨true, false, [JSVal.vdate 0,
        JSVal.vdate 2419200000]⟩] j = some sc → sc ≤ score) ∧
    detectDateAxisIndex (truncCatValues [⟨true, false, [JSVal.vdate 0,
      JSVal.vdate 2419200000]⟩]) [0] =
      detectDateAxisIndex [⟨true, false, [JSVal.vdate 0,
        JSVal.vdate 2419200000]⟩] [0] := by
  have hq : (dateAxisCandidate [⟨true, false, [JSVal.vdate 0,
      JSVal.vdate 2419200000]⟩] 0).isSome := by
    norm_num [dateAxisCandidate, dateAxisColScan, tryParseDateMsHeuristic,
      minRangeMs, List.take, List.foldl]
  have h := detect_date_axis_rules [⟨true, false, [JSVal.vdate 0,
    JSVal.vdate 2419200000]⟩] [0]
  obtain ⟨i, hi, hrest⟩ := h.2.1 ⟨0, by decide, hq⟩
  have hi0 : i = 0 := by simpa using hi
  subst hi0
  exact ⟨⟨0, by decide, hrest⟩, h.1⟩

/-- C6 counterexample: a column metadata-typed as temporal whose two values
are the small numbers `1` and `2` parses 0% of its samples as dates — far
below the 85% threshold, so the sampling heuristic rejects it
(`dateAxisCandidate = none`) — yet `detectDateAxisIndex` accepts it as the
date axis (returns its index) through the typed-metadata fallback,
contradicting "accepts a column as the date axis only when ≥85% parse AND
the range is ≥28 days". -/
theorem detect_date_axis_typed_fallback_cx :
    detectDateAxisIndex [⟨false, true, [JSVal.vnum 1, JSVal.vnum 2]⟩] [0]
      = 0 ∧
    dateAxisCandidate [⟨false, true, [JSVal.vnum 1, JSVal.vnum 2]⟩] 0
      = none := by
  have hc : dateAxisCandidate [⟨false, true, [JSVal.vnum 1, JSVal.vnum 2]⟩] 0
      = none := by
    norm_num [dateAxisCandidate, dateAxisColScan, tryParseDateMsHeuristic,
      MIN_MS_TIMESTAMP_FOR_DATE_AXIS, List.take, List.foldl]
  refine ⟨?_, hc⟩
  simp only [detectDateAxisIndex]
  norm_num [hc, catTyped, List.filter]

/-! ## World-history timeline transformer (WorldHistoryTimelineTransformer.ts)

Cell values of the timeline's data views are modelled as `null`, `Date`, or
finite number.  The transformer also has string-parsing branches
(`parseQuarterDate`, `Date.parse`, numeric strings); string cells do not
occur in this model, so those branches are not represented — every claim
settled against this embedding is independent of them (the row post-
processing that the claims concern applies uniformly to whatever the
resolution helpers return). -/

inductive TLVal where
  | vnull
  | vdate (ms : Int)
  | vnum (q : ℚ)
deriving DecidableEq, Repr

/-- Embedding of timeline cells into the generic raw-value model (used to
reuse the shared formatters). -/
def TLVal.toJSVal : TLVal → JSVal
  | .vnull => JSVal.vnull
  | .vdate ms => JSVal.vdate ms
  | .vnum q => JSVal.vnum q

/-- One column (category or value) of the timeline's categorical view. -/
structure TLColumn where
  roles : List String
  displayName : Option String
  queryName : Option String
  typeDateTime : Bool
  typeTemporal : Bool
  format : Option String
  values : List TLVal
deriving DecidableEq, Repr

/-- The timeline's categorical data view. -/
structure TLCategorical where
  categories : List TLColumn
  values : List TLColumn
deriving DecidableEq, Repr

/-- JS `\w` word characters. -/
def isWordChar (c : Char) : Bool := c.isAlphanum || c = '_'

/-- Maximal word-character runs of a string (for `\b…\b` word tests). -/
def wordTokensAux : List Char → List Char → List String
  | [], cur => if cur.isEmpty then [] else [String.mk cur.reverse]
  | c :: rest, cur =>
    if isWordChar c then wordTokensAux rest (c :: cur)
    else (if cur.isEmpty then [] else [String.mk cur.reverse]) ++
      wordTokensAux rest []

/-- Word list of a string. -/
def wordTokens (s : String) : List String := wordTokensAux s.toList []

/-- JS regex `\bw\b` on `s` for a purely word-character `w`. -/
def nameHasWord (s w : String) : Bool := w ∈ wordTokens s

/-- JS `String.prototype.endsWith`. -/
def strEndsWith (s suffix : String) : Bool :=
  suffix.toList.isSuffixOf s.toList

/-- JS `String.prototype.includes`. -/
def strIncludes (s pat : String) : Bool :=
  decide (pat.toList <:+: s.toList)

/-- `getColumnName` (source lines 345-348): lower-cased
`"displayName queryName"`. -/
def getColumnName (col : TLColumn) : String :=
  jsToLower ((col.displayName.getD "") ++ " " ++ (col.queryName.getD ""))

/-- `/\byear\b/ || /\.year$/` on a column name. -/
def yearNameHint (name : String) : Bool :=
  nameHasWord name "year" || strEndsWith name ".year"

/-- `/\bquarter\b|\bqtr\b|\.quarter$/` on a column name. -/
def quarterNameHint (name : String) : Bool :=
  nameHasWord name "quarter" || nameHasWord name "qtr" ||
    strEndsWith name ".quarter"

/-- `/\bmonth\b|\.month$/` on a column name. -/
def monthNameHint (name : String) : Bool :=
  nameHasWord name "month" || strEndsWith name ".month"

/-- `/\bday\b|\.day$/` on a column name. -/
def dayNameHint (name : String) : Bool :=
  nameHasWord name "day" || strEndsWith name ".day"

/-- `hasHierarchyHints`'s per-name regex (source lines 350-355). -/
def hierarchyHint (name : String) : Bool :=
  yearNameHint name || quarterNameHint name || monthNameHint name ||
    dayNameHint name

/-- JS `Math.round` (half toward `+∞`). -/
def jsRound (q : ℚ) : Int := ⌊q + 1 / 2⌋

/-- `parseIntegerValue` (source lines 146-156): a finite number rounds; a
`Date` string-coerces to something non-numeric. -/
def parseIntegerValue : TLVal → Option Int
  | .vnull => none
  | .vnum q => some (jsRound q)
  | .vdate _ => none

/-- `parseMonthValue` (source lines 114-144) restricted to the model's
values: a rounded number in `[1, 12]`. -/
def parseMonthValue : TLVal → Option Int
  | .vnull => none
  | .vnum q =>
    let n := jsRound q
    if 1 ≤ n ∧ n ≤ 12 then some n else none
  | .vdate _ => none

/-- `parseQuarterValue` (source lines 158-180) restricted to the model's
values: a rounded number in `[1, 4]`. -/
def parseQuarterValue : TLVal → Option Int
  | .vnull => none
  | .vnum q =>
    let n := jsRound q
    if 1 ≤ n ∧ n ≤ 4 then some n else none
  | .vdate _ => none

/-- `toTimelineValue` (source lines 736-770): a `Date`'s ms; a finite number
through `normalizeEpochNumber`. -/
def toTimelineValue : TLVal → Option ℚ
  | .vnull => none
  | .vdate ms => some (ms : ℚ)
  | .vnum q => some (normalizeEpochNumber q)

/-- Cell of a column at a row (`column.values[rowIndex]`; out of range is
`undefined`, conflated with `null`). -/
def tlCell (col : TLColumn) (i : Nat) : TLVal :=
  col.values.getD i TLVal.vnull

/-- `hasYearInRow` (source lines 182-229): some column of the row carries a
`Date`, a 4-digit integer under a year-named column, or an epoch-like
number. -/
def hasYearInRow (columns : List TLColumn) (i : Nat) : Bool :=
  columns.any (fun col =>
    match tlCell col i with
    | .vnull => false
    | .vdate _ => true
    | .vnum q =>
      (yearNameHint (getColumnName col) &&
        (match parseIntegerValue (.vnum q) with
         | some iv => decide (1000 ≤ iv ∧ iv ≤ 9999)
         | none => false)) ||
      isEpochLike (normalizeEpochNumber q))

/-- `Math.max(lo, Math.min(hi, v))`. -/
def clampInt (lo hi v : Int) : Int := max lo (min hi v)

/-- Bounds test on an optional integer (`v !== null && lo <= v && v <= hi`). -/
def inRangeOpt (lo hi : Int) : Option Int → Bool
  | some v => decide (lo ≤ v ∧ v ≤ hi)
  | none => false

/-- Shared loop body of `resolveDateWithReferenceYear` and
`resolveTimelineOrdinalFromHierarchy` (source lines 236-269 and 558-591,
which are identical): collect quarter/month/day from the row, name-matched
columns overwriting, unnamed ones filling first-come. -/
def collectQMD (columns : List TLColumn) (i : Nat) :
    Option Int × Option Int × Option Int :=
  columns.foldl
    (fun (acc : Option Int × Option Int × Option Int) col =>
      let (quarter, month, day) := acc
      match tlCell col i with
      | .vnull => acc
      | raw =>
        let name := getColumnName col
        let monthValue := parseMonthValue raw
        let dayValue := parseIntegerValue raw
        let quarterValue := parseQuarterValue raw
        if quarterNameHint name ∧ quarterValue.isSome then
          (quarterValue, month, day)
        else if monthNameHint name ∧ monthValue.isSome then
          (quarter, monthValue, day)
        else if dayNameHint name && inRangeOpt 1 31 dayValue then
          (quarter, month, dayValue)
        else if month.isNone ∧ monthValue.isSome then
          (quarter, monthValue, day)
        else if day.isNone && inRangeOpt 1 31 dayValue then
          (quarter, month, dayValue)
        else if quarter.isNone ∧ quarterValue.isSome then
          (quarterValue, month, day)
        else acc)
    (none, none, none)

/-- Composition tail shared by the two month/quarter/day resolvers (source
lines 271-281 and 593-605): month first, then quarter, then day alone,
anchored at `year`. -/
def composeQMD (year : Int) (qmd : Option Int × Option Int × Option Int) :
    Option Int :=
  match qmd with
  | (quarter, month, day) =>
    match month with
    | some m =>
      dateUTCms year (clampInt 0 11 (m - 1)) (clampInt 1 31 (day.getD 1))
    | none =>
      match quarter with
      | some q => dateUTCms year ((clampInt 1 4 q - 1) * 3) 1
      | none =>
        match day with
        | some d => dateUTCms year 0 (clampInt 1 31 d)
        | none => none

/-- `resolveDateWithReferenceYear` (source lines 231-282). -/
def resolveDateWithReferenceYear (columns : List TLColumn) (i : Nat)
    (referenceYear : Int) : Option Int :=
  composeQMD referenceYear (collectQMD columns i)

/-- `resolveTimelineOrdinalFromHierarchy` (source lines 553-606): same
collection, anchored at the (rounded) fallback year. -/
def resolveTimelineOrdinalFromHierarchy (columns : List TLColumn) (i : Nat)
    (fallbackYear : ℚ) : Option Int :=
  composeQMD (jsRound fallbackYear) (collectQMD columns i)

/-- `parseDateFromHierarchyLevel` (source lines 284-343). -/
def parseDateFromHierarchyLevel (col : TLColumn) (i : Nat) : Option ℚ :=
  match tlCell col i with
  | .vnull => none
  | .vdate ms => some (ms : ℚ)
  | raw =>
    let name := getColumnName col
    let intValue := parseIntegerValue raw
    let monthValue := parseMonthValue raw
    let quarterValue := parseQuarterValue raw
    if yearNameHint name ∧ intValue.isSome then
      (dateUTCms (intValue.getD 0) 0 1).map (fun ms => (ms : ℚ))
    else if quarterNameHint name ∧ quarterValue.isSome then none
    else if monthNameHint name ∧ monthValue.isSome then none
    else if dayNameHint name && inRangeOpt 1 31 intValue then none
    else
      match toTimelineValue raw with
      | some nv =>
        if isEpochLike nv then some nv
        else
          match intValue with
          | some iv =>
            if 1000 ≤ iv ∧ iv ≤ 9999 then
              (dateUTCms iv 0 1).map (fun ms => (ms : ℚ))
            else none
          | none => none
      | none => none

/-- Loop state of `resolveTimelineDateFromHierarchy`. -/
def resolveTLDateAux (i : Nat) :
    List TLColumn → Option Int → Option Int → Option Int → Option Int →
      Option ℚ
  | [], year, quarter, month, day =>
    match year with
    | none => none
    | some y =>
      let resolvedMonth := month.getD ((quarter.map (fun q => (q - 1) * 3 + 1)).getD 1)
      let resolvedDay := day.getD 1
      ((dateUTCms y (clampInt 0 11 (resolvedMonth - 1))
        (clampInt 1 31 resolvedDay)).map (fun ms => (ms : ℚ)))
  | col :: rest, year, quarter, month, day =>
    match tlCell col i with
    | .vnull => resolveTLDateAux i rest year quarter month day
    | .vdate ms => some (ms : ℚ)
    | raw =>
      let name := getColumnName col
      let intValue := parseIntegerValue raw
      let monthValue := parseMonthValue raw
      let quarterValue := parseQuarterValue raw
      if yearNameHint name ∧ intValue.isSome then
        resolveTLDateAux i rest intValue quarter month day
      else if quarterNameHint name ∧ quarterValue.isSome then
        resolveTLDateAux i rest year quarterValue month day
      else if monthNameHint name ∧ monthValue.isSome then
        resolveTLDateAux i rest year quarter monthValue day
      else if dayNameHint name && inRangeOpt 1 31 intValue then
        resolveTLDateAux i rest year quarter month intValue
      else
        match intValue with
        | some iv =>
          if year.isNone ∧ 1000 ≤ iv ∧ iv ≤ 9999 then
            resolveTLDateAux i rest (some iv) quarter month day
          -- the `/\bq\b/` quarter fallback only fires for string cells,
          -- which this model does not carry
          else if month.isNone ∧ 1 ≤ iv ∧ iv ≤ 12 then
            resolveTLDateAux i rest year quarter (some iv) day
          else if day.isNone ∧ 1 ≤ iv ∧ iv ≤ 31 then
            resolveTLDateAux i rest year quarter month (some iv)
          else
            resolveTLDateAux i rest year quarter
              (if month.isNone ∧ monthValue.isSome then monthValue else month)
              day
        | none =>
          resolveTLDateAux i rest year quarter
            (if month.isNone ∧ monthValue.isSome then monthValue else month)
            day

/-- `resolveTimelineDateFromHierarchy` (source lines 608-704): early return
on the first `Date` cell, otherwise compose year/quarter/month/day. -/
def resolveTimelineDateFromHierarchy (columns : List TLColumn) (i : Nat) :
    Option ℚ :=
  resolveTLDateAux i columns none none none none

/-- `TimelineTemporalLevel` (source line 12). -/
inductive TemporalLevel where
  | lnone
  | ldate
  | lyear
  | lquarter
  | lmonth
  | lday
deriving DecidableEq, Repr

/-- `getTemporalLevelRank` (source lines 357-372). -/
def getTemporalLevelRank : TemporalLevel → Nat
  | .lday => 5
  | .lmonth => 4
  | .lquarter => 3
  | .lyear => 2
  | .ldate => 1
  | .lnone => 0

/-- `inferTemporalLevel`'s per-column value scan (source lines 405-486),
carrying `(columnLevel, columnHasValue, columnHasYear)`. -/
def temporalValueScan (values : List TLVal) (level0 : TemporalLevel) :
    TemporalLevel × Bool × Bool :=
  values.foldl
    (fun (acc : TemporalLevel × Bool × Bool) v =>
      let (columnLevel, _, columnHasYear) := acc
      match v with
      | .vnull => acc
      | .vdate _ => (.ldate, true, true)
      | .vnum q =>
        if isEpochLike (normalizeEpochNumber q) then (.ldate, true, true)
        else
          let asInt := jsRound q
          if 1000 ≤ asInt ∧ asInt ≤ 9999 then
            ((if columnLevel = .lnone then .lyear else columnLevel), true, true)
          else if columnLevel = .lnone then
            (if 1 ≤ asInt ∧ asInt ≤ 4 then (.lquarter, true, columnHasYear)
             else if 1 ≤ asInt ∧ asInt ≤ 12 then (.lmonth, true, columnHasYear)
             else if 1 ≤ asInt ∧ asInt ≤ 31 then (.lday, true, columnHasYear)
             else (columnLevel, true, columnHasYear))
          else (columnLevel, true, columnHasYear))
    (level0, false, false)

/-- `inferTemporalLevel` (source lines 374-513). -/
def inferTemporalLevel (columns : List TLColumn) :
    TemporalLevel × Bool :=
  let scanned := columns.foldl
    (fun (acc : TemporalLevel × Bool) col =>
      let (level, hasYearContext) := acc
      let name := getColumnName col
      let nameLevel : TemporalLevel :=
        if dayNameHint name then .lday
        else if monthNameHint name then .lmonth
        else if quarterNameHint name then .lquarter
        else if yearNameHint name then .lyear
        else .lnone
      let nameLevel := if col.typeDateTime || col.typeTemporal then .ldate
        else nameLevel
      let scan := temporalValueScan col.values nameLevel
      if ¬ scan.2.1 then acc
      else
        ((if getTemporalLevelRank scan.1 > getTemporalLevelRank level
          then scan.1 else level),
         hasYearContext || scan.2.2))
    (.lnone, false)
  let level := if scanned.1 = .lnone ∧ scanned.2 then .lyear else scanned.1
  match level with
  | .lday | .lmonth | .lquarter => (level, scanned.2)
  | .lyear | .ldate => (level, true)
  | .lnone => (level, scanned.2)

/-- Per-row year extraction of `inferReferenceYear`'s inner column loop
(source lines 530-542). -/
def refYearFromColumns (i : Nat) : List TLColumn → Option Int
  | [] => none
  | col :: rest =>
    match parseDateFromHierarchyLevel col i with
    | some ms => some (msToUTCYear ms)
    | none =>
      match parseIntegerValue (tlCell col i) with
      | some iv =>
        if 1000 ≤ iv ∧ iv ≤ 9999 then some iv else refYearFromColumns i rest
      | none => refYearFromColumns i rest

/-- `inferReferenceYear` (source lines 515-551): the median (upper middle)
of the per-row years, ascending. -/
def inferReferenceYear (columns : List TLColumn) : Option Int :=
  if columns.isEmpty then none
  else
    let rowCount := columns.foldl (fun m c => max m c.values.length) 0
    let years := (List.range rowCount).foldl
      (fun (acc : List Int) i =>
        match resolveTimelineDateFromHierarchy columns i with
        | some ms => acc ++ [msToUTCYear ms]
        | none =>
          match refYearFromColumns i columns with
          | some y => acc ++ [y]
          | none => acc)
      []
    if years.isEmpty then none
    else
      let sorted := years.insertionSort (fun a b => a ≤ b)
      sorted.get? (years.length / 2)

/-- `getRoleColumns` (source lines 706-734). -/
def getRoleColumns (cat : TLCategorical) (roleName : String)
    (includeValues includeCategories : Bool) : List TLColumn :=
  (if includeValues then
    cat.values.filter (fun c => decide (roleName ∈ c.roles))
  else []) ++
  (if includeCategories then
    cat.categories.filter (fun c => decide (roleName ∈ c.roles))
  else [])

/-- `getValueColumnsByRole` (source lines 36-46). -/
def getValueColumnsByRole (cat : TLCategorical) (roleName : String) :
    List TLColumn :=
  cat.values.filter (fun c => decide (roleName ∈ c.roles))

/-- `fallbackValueColumn` (source lines 48-68).  The JS `Set` of excluded
columns is identity-based; the model compares columns structurally, which
coincides except for indistinguishable duplicate column objects. -/
def fallbackValueColumn (cat : TLCategorical) (preferredRoleName : String)
    (exclude : List TLColumn) : Option TLColumn :=
  match (getValueColumnsByRole cat preferredRoleName).find?
      (fun c => decide (c ∉ exclude)) with
  | some c => some c
  | none => cat.values.find? (fun c => decide (c ∉ exclude))

/-- `isDateLikeColumn` (source lines 772-827), minus the string-value
branch. -/
def isDateLikeColumn (col : TLColumn) : Bool :=
  col.typeDateTime || col.typeTemporal ||
  (let fmt := jsToLower (col.format.getD "")
   strIncludes fmt "yyyy" || strIncludes fmt "yy" || strIncludes fmt "mmm" ||
     strIncludes fmt "mm" || strIncludes fmt "dd") ||
  hierarchyHint (getColumnName col) ||
  col.values.any (fun v =>
    match v with
    | .vdate _ => true
    | .vnum q => isEpochLike q
    | .vnull => false)

/-- `isDateLikeColumns` (source lines 829-831). -/
def isDateLikeColumns (columns : List TLColumn) : Bool :=
  columns.any isDateLikeColumn

/-- `hasHierarchyHints` (source lines 350-355). -/
def hasHierarchyHints (columns : List TLColumn) : Bool :=
  columns.any (fun col => hierarchyHint (getColumnName col))

/-- `resolveTimelineValue` (source lines 833-870). -/
def resolveTimelineValue (columns : List TLColumn) (i : Nat)
    (preferDateHierarchy : Bool) (fallbackYear : Option ℚ) : Option ℚ :=
  let deepFallback : Option ℚ :=
    columns.reverse.findSome?
      (fun c => toTimelineValue (tlCell c i))
  if preferDateHierarchy then
    match resolveTimelineDateFromHierarchy columns i with
    | some r => some r
    | none =>
      match columns.reverse.findSome?
          (fun c => parseDateFromHierarchyLevel c i) with
      | some r => some r
      | none =>
        match resolveTimelineOrdinalFromHierarchy columns i
            (fallbackYear.getD 2000) with
        | some r => some (r : ℚ)
        | none => deepFallback
  else deepFallback

/-- `getFormatString` (source lines 872-880). -/
def getFormatString (columns : List TLColumn) : Option String :=
  columns.reverse.findSome?
    (fun c => match c.format with
      | some fmt => if jsTrim fmt = "" then none else some fmt
      | none => none)

/-- `joinUniqueLabelParts` (source lines 912-936); the separator `" • "`
appears mojibake-encoded in the source file but is the shared middle-dot
join used across the repository. -/
def joinUniqueLabelParts (parts : List String) (fallback : String) : String :=
  if parts.isEmpty then fallback
  else
    let merged := (parts.foldl
      (fun (acc : List String × List String) part =>
        let value := jsTrim part
        if value = "" then acc
        else
          let normalized := jsToLower value
          if normalized ∈ acc.2 then acc
          else (acc.1 ++ [value], acc.2 ++ [normalized]))
      ([], [])).1
    if merged.isEmpty then fallback
    else String.intercalate " • " merged

/-- `joinCategoryLabel` (source lines 882-901). -/
def joinCategoryLabel (columns : List TLColumn) (i : Nat)
    (fallback : String) : String :=
  if columns.isEmpty then fallback
  else
    let parts := columns.foldl
      (fun (acc : List String) col =>
        match tlCell col i with
        | .vnull => acc
        | raw =>
          let label := formatDataValue raw.toJSVal i
          if jsTrim label = "" then acc else acc ++ [label])
      []
    joinUniqueLabelParts parts fallback

/-- `joinGroupLabel` (source lines 903-910). -/
def joinGroupLabel (columns : List TLColumn) (i : Nat)
    (fallback : String) : String :=
  if columns.isEmpty then fallback
  else
    joinUniqueLabelParts
      (columns.map (fun col => formatGroupValue (tlCell col i).toJSVal))
      fallback

/-- `WorldHistoryTimelinePoint` (source lines 14-20, extending the shared
`DataPoint` fields). -/
structure WorldHistoryTimelinePoint where
  xValue : String
  yValue : String
  value : ℚ
  groupValue : String
  index : Nat
  civilization : String
  region : String
  startYear : ℚ
  endYear : ℚ
  duration : ℚ
deriving DecidableEq, Repr

/-- `WorldHistoryTimelineData` (source lines 22-33); `dataPoints` and
`items` are the same array in the source, so they hold the same list
here. -/
structure WorldHistoryTimelineData where
  dataPoints : List WorldHistoryTimelinePoint
  items : List WorldHistoryTimelinePoint
  xValues : List String
  yValues : List String
  groups : List String
  regions : List String
  maxValue : ℚ
  minValue : ℚ
  minYear : ℚ
  maxYear : ℚ
  hasRegionRoleData : Bool
  startFormatString : Option String
  endFormatString : Option String
  timeScaleMode : String
  timeTemporalLevel : TemporalLevel
  timeHasYearContext : Bool
deriving DecidableEq, Repr

/-- Start/end column resolution with the fallback chain (source lines
950-970). -/
def timelineResolvedColumns (cat : TLCategorical) :
    List TLColumn × List TLColumn :=
  let startColumns0 := getRoleColumns cat "startYear" true true
  let endColumns0 := getRoleColumns cat "endYear" true true
  let occupied0 := startColumns0 ++ endColumns0
  let startEnd1 :=
    if startColumns0.isEmpty then
      match fallbackValueColumn cat "startYear" occupied0 with
      | some c => (startColumns0 ++ [c], occupied0 ++ [c])
      | none => (startColumns0, occupied0)
    else (startColumns0, occupied0)
  let startColumns1 := startEnd1.1
  let occupied1 := startEnd1.2
  let endColumns1 :=
    if endColumns0.isEmpty then
      match fallbackValueColumn cat "endYear" occupied1 with
      | some c => endColumns0 ++ [c]
      | none => endColumns0
    else endColumns0
  let endColumns2 :=
    if endColumns1.isEmpty ∧ ¬ startColumns1.isEmpty then
      endColumns1 ++ (startColumns1.getLast?).toList
    else endColumns1
  (startColumns1, endColumns2)

/-- Per-row endpoint resolution including the reference-year anchoring
(source lines 1018-1050): `(startYear, endYear)` before the
degrade/drop/swap post-processing. -/
def timelineRowResolved (startColumns endColumns : List TLColumn)
    (isDateScale : Bool) (refYear : Option ℚ) (i : Nat) :
    Option ℚ × Option ℚ :=
  let startHasYear := hasYearInRow startColumns i
  let endHasYear := hasYearInRow endColumns i
  let startYear0 := resolveTimelineValue startColumns i isDateScale refYear
  let endYear0 := resolveTimelineValue endColumns i isDateScale refYear
  if isDateScale then
    let startYear1 :=
      match endYear0 with
      | some e =>
        if ¬ startHasYear ∧ endHasYear then
          match resolveDateWithReferenceYear startColumns i (msToUTCYear e) with
          | some a => some (a : ℚ)
          | none => startYear0
        else startYear0
      | none => startYear0
    let endYear1 :=
      match startYear1 with
      | some s =>
        if ¬ endHasYear ∧ startHasYear then
          match resolveDateWithReferenceYear endColumns i (msToUTCYear s) with
          | some a => some (a : ℚ)
          | none => endYear0
        else endYear0
      | none => endYear0
    (startYear1, endYear1)
  else (startYear0, endYear0)

/-- Point construction for an emitted row (source lines 1073-1096), with
`startYear ≤ endYear` already arranged by the caller. -/
def timelineMkPoint (civColumns regColumns : List TLColumn) (i : Nat)
    (itemOrdinal : Nat) (s e : ℚ) : WorldHistoryTimelinePoint :=
  let civilization := joinCategoryLabel civColumns i
    ("Entry " ++ toString (itemOrdinal + 1))
  let region := joinGroupLabel regColumns i "World"
  let duration := max 0 (e - s)
  { xValue := toString s,
    yValue := civilization,
    value := duration,
    groupValue := "All",
    index := i,
    civilization := civilization,
    region := region,
    startYear := s,
    endYear := e,
    duration := duration }

/-- One row of the timeline transform (source lines 1017-1100): both
endpoints unresolved drops the row; one unresolved endpoint degrades to
the other; reversed endpoints are silently swapped before emitting. -/
def timelineRowItem (startColumns endColumns civColumns regColumns :
    List TLColumn) (isDateScale : Bool) (refYear : Option ℚ) (i : Nat)
    (itemOrdinal : Nat) : Option WorldHistoryTimelinePoint :=
  match timelineRowResolved startColumns endColumns isDateScale refYear i with
  | (none, none) => none
  | (some s, none) => some (timelineMkPoint civColumns regColumns i itemOrdinal s s)
  | (none, some e) => some (timelineMkPoint civColumns regColumns i itemOrdinal e e)
  | (some s, some e) =>
    if e < s then
      some (timelineMkPoint civColumns regColumns i itemOrdinal e s)
    else
      some (timelineMkPoint civColumns regColumns i itemOrdinal s e)

/-- State of the timeline's row loop. -/
structure TimelineLoopState where
  items : List WorldHistoryTimelinePoint
  regions : List String
  minYear : Option ℚ
  maxYear : Option ℚ
  minDuration : Option ℚ
  maxDuration : Option ℚ
  itemOrdinal : Nat

/-- One iteration of the row loop (source lines 1017-1101). -/
def timelineRowStep (startColumns endColumns civColumns regColumns :
    List TLColumn) (isDateScale : Bool) (refYear : Option ℚ)
    (st : TimelineLoopState) (i : Nat) : TimelineLoopState :=
  match timelineRowItem startColumns endColumns civColumns regColumns
      isDateScale refYear i st.itemOrdinal with
  | none => st
  | some pt =>
    { items := st.items ++ [pt],
      regions := setAdd st.regions pt.region,
      minYear := some (match st.minYear with
        | none => pt.startYear
        | some m => min m pt.startYear),
      maxYear := some (match st.maxYear with
        | none => pt.endYear
        | some m => max m pt.endYear),
      minDuration := some (match st.minDuration with
        | none => pt.duration
        | some m => min m pt.duration),
      maxDuration := some (match st.maxDuration with
        | none => pt.duration
        | some m => max m pt.duration),
      itemOrdinal := st.itemOrdinal + 1 }

/-- Row count: the longest value array over all participating columns
(source lines 1001-1009). -/
def timelineRowCount (cat : TLCategorical) : Nat :=
  let civilizationColumns := getRoleColumns cat "civilization" false true
  let regionColumns := getRoleColumns cat "region" false true
  let cols := timelineResolvedColumns cat
  let allColumns := civilizationColumns ++ regionColumns ++ cols.1 ++ cols.2
  if allColumns.isEmpty then 0
  else allColumns.foldl (fun m c => max m c.values.length) 0

/-- The row-loop fold of the timeline transform. -/
def timelineLoop (cat : TLCategorical) : TimelineLoopState :=
  let civilizationColumns := getRoleColumns cat "civilization" false true
  let regionColumns := getRoleColumns cat "region" false true
  let cols := timelineResolvedColumns cat
  let startColumns := cols.1
  let endColumns := cols.2
  let isDateScale := hasHierarchyHints startColumns ||
    hasHierarchyHints endColumns || isDateLikeColumns startColumns ||
    isDateLikeColumns endColumns
  let fallbackReferenceYear : Option ℚ :=
    if isDateScale then
      (inferReferenceYear (startColumns ++ endColumns)).map (fun y => (y : ℚ))
    else none
  (List.range (timelineRowCount cat)).foldl
    (timelineRowStep startColumns endColumns civilizationColumns
      regionColumns isDateScale fallbackReferenceYear)
    ⟨[], [], none, none, none, none, 0⟩

/-- `WorldHistoryTimelineTransformer.transform` (source lines 938-1136). -/
def timelineTransform (cat : TLCategorical) : WorldHistoryTimelineData :=
  let regionColumns := getRoleColumns cat "region" false true
  let cols := timelineResolvedColumns cat
  let startColumns := cols.1
  let endColumns := cols.2
  if startColumns.isEmpty ∨ endColumns.isEmpty then
    { dataPoints := [], items := [], xValues := [], yValues := [],
      groups := [], regions := [], maxValue := 0, minValue := 0,
      minYear := 0, maxYear := 0,
      hasRegionRoleData := ¬ regionColumns.isEmpty,
      startFormatString := none, endFormatString := none,
      timeScaleMode := "numeric", timeTemporalLevel := .lnone,
      timeHasYearContext := true }
  else
    let isDateScale := hasHierarchyHints startColumns ||
      hasHierarchyHints endColumns || isDateLikeColumns startColumns ||
      isDateLikeColumns endColumns
    let temporalColumns := if ¬ startColumns.isEmpty then startColumns
      else endColumns
    let temporalContext := inferTemporalLevel temporalColumns
    let combinedTemporalContext :=
      inferTemporalLevel (startColumns ++ endColumns)
    let fallbackReferenceYear : Option ℚ :=
      if isDateScale then
        (inferReferenceYear (startColumns ++ endColumns)).map
          (fun y => (y : ℚ))
      else none
    let st := timelineLoop cat
    let yearPair : ℚ × ℚ :=
      match st.minYear, st.maxYear with
      | some mn, some mx => (mn, mx)
      | _, _ => (0, 0)
    let minDuration := st.minDuration.getD 0
    let maxDuration := st.maxDuration.getD 0
    let regions := st.regions.insertionSort (fun a b => strCmp a b ≠ .gt)
    { dataPoints := st.items,
      items := st.items,
      xValues := [toString yearPair.1, toString yearPair.2],
      yValues := st.items.map WorldHistoryTimelinePoint.civilization,
      groups := ["All"],
      regions := regions,
      minValue := minDuration,
      maxValue := maxDuration,
      minYear := yearPair.1,
      maxYear := yearPair.2,
      hasRegionRoleData := ¬ regionColumns.isEmpty,
      startFormatString := getFormatString startColumns,
      endFormatString := getFormatString endColumns,
      timeScaleMode := if isDateScale then "date" else "numeric",
      timeTemporalLevel := temporalContext.1,
      timeHasYearContext := combinedTemporalContext.2 ||
        fallbackReferenceYear.isSome }

/-- Every emitted row item is well-formed: ordered endpoints, duration as
their difference, and the source row index. -/
theorem timelineRowItem_spec (sc ec cc rc : List TLColumn) (ds : Bool)
    (ry : Option ℚ) (i o : Nat) (pt : WorldHistoryTimelinePoint)
    (h : timelineRowItem sc ec cc rc ds ry i o = some pt) :
    pt.startYear ≤ pt.endYear ∧ pt.duration = pt.endYear - pt.startYear ∧
      0 ≤ pt.duration ∧ pt.index = i := by
  have hmk : ∀ s e : ℚ, s ≤ e →
      (timelineMkPoint cc rc i o s e).startYear ≤
        (timelineMkPoint cc rc i o s e).endYear ∧
      (timelineMkPoint cc rc i o s e).duration =
        (timelineMkPoint cc rc i o s e).endYear -
          (timelineMkPoint cc rc i o s e).startYear ∧
      0 ≤ (timelineMkPoint cc rc i o s e).duration ∧
      (timelineMkPoint cc rc i o s e).index = i := by
    intro s e hse
    have hdiff : (0 : ℚ) ≤ e - s := sub_nonneg.mpr hse
    have hdur : max 0 (e - s) = e - s := max_eq_right hdiff
    refine ⟨hse, ?_, ?_, rfl⟩
    · show max 0 (e - s) = e - s
      exact hdur
    · show (0 : ℚ) ≤ max 0 (e - s)
      exact le_max_left _ _
  unfold timelineRowItem at h
  rcases hres : timelineRowResolved sc ec ds ry i with ⟨so, eo⟩
  rw [hres] at h
  rcases so with _ | s <;> rcases eo with _ | e
  · exact absurd h (by simp)
  · injection h with h
    subst h
    exact hmk e e (le_refl e)
  · injection h with h
    subst h
    exact hmk s s (le_refl s)
  · have h' : (if e < s then some (timelineMkPoint cc rc i o e s)
        else some (timelineMkPoint cc rc i o s e)) = some pt := h
    by_cases hlt : e < s
    · rw [if_pos hlt] at h'
      injection h' with h'
      subst h'
      exact hmk e s (le_of_lt hlt)
    · rw [if_neg hlt] at h'
      injection h' with h'
      subst h'
      exact hmk s e (le_of_not_lt hlt)

/-- The row loop only appends well-formed items whose indices are the
processed row indices in order. -/
theorem timeline_fold_spec (sc ec cc rc : List TLColumn) (ds : Bool)
    (ry : Option ℚ) :
    ∀ (l : List Nat) (st : TimelineLoopState) (pfx : List Nat),
      (st.items.map WorldHistoryTimelinePoint.index).Sublist pfx →
      (∀ pt ∈ st.items, pt.startYear ≤ pt.endYear ∧
        pt.duration = pt.endYear - pt.startYear ∧ 0 ≤ pt.duration) →
      (((l.foldl (timelineRowStep sc ec cc rc ds ry) st).items.map
          WorldHistoryTimelinePoint.index).Sublist (pfx ++ l) ∧
        ∀ pt ∈ (l.foldl (timelineRowStep sc ec cc rc ds ry) st).items,
          pt.startYear ≤ pt.endYear ∧
            pt.duration = pt.endYear - pt.startYear ∧ 0 ≤ pt.duration) := by
  intro l
  induction l with
  | nil =>
    intro st pfx hsub hitems
    simpa using ⟨hsub, hitems⟩
  | cons i rest ih =>
    intro st pfx hsub hitems
    simp only [List.foldl_cons]
    have hstep : ((timelineRowStep sc ec cc rc ds ry st i).items.map
        WorldHistoryTimelinePoint.index).Sublist (pfx ++ [i]) ∧
        ∀ pt ∈ (timelineRowStep sc ec cc rc ds ry st i).items,
          pt.startYear ≤ pt.endYear ∧
            pt.duration = pt.endYear - pt.startYear ∧ 0 ≤ pt.duration := by
      unfold timelineRowStep
      rcases hitem : timelineRowItem sc ec cc rc ds ry i st.itemOrdinal
        with _ | pt
      · exact ⟨hsub.trans (List.sublist_append_left pfx [i]), hitems⟩
      · obtain ⟨h1, h2, h3, h4⟩ :=
          timelineRowItem_spec sc ec cc rc ds ry i st.itemOrdinal pt hitem
        constructor
        · show ((st.items ++ [pt]).map
            WorldHistoryTimelinePoint.index).Sublist (pfx ++ [i])
          rw [List.map_append]
          simp only [List.map_cons, List.map_nil, h4]
          exact hsub.append (List.Sublist.refl [i])
        · intro q hq
          rcases List.mem_append.mp hq with hq | hq
          · exact hitems q hq
          · simp only [List.mem_singleton] at hq
            subst hq
            exact ⟨h1, h2, h3⟩
    have := ih (timelineRowStep sc ec cc rc ds ry st i) (pfx ++ [i])
      hstep.1 hstep.2
    simpa [List.append_assoc] using this

/-- C10: every item the timeline transformer emits satisfies
`startYear ≤ endYear` and `duration = endYear − startYear ≥ 0`; when a
row's two resolved endpoints are in reverse order the transformer silently
swaps them before emitting (second conjunct), and a row where neither
endpoint resolves is dropped entirely (third conjunct). -/
theorem timeline_item_ordering (cat : TLCategorical) :
    (∀ pt ∈ (timelineTransform cat).items,
      pt.startYear ≤ pt.endYear ∧
        pt.duration = pt.endYear - pt.startYear ∧ 0 ≤ pt.duration) ∧
    (∀ (sc ec cc rc : List TLColumn) (ds : Bool) (ry : Option ℚ)
        (i o : Nat) (s e : ℚ),
      timelineRowResolved sc ec ds ry i = (some s, some e) → e < s →
      timelineRowItem sc ec cc rc ds ry i o =
        some (timelineMkPoint cc rc i o e s)) ∧
    (∀ (sc ec cc rc : List TLColumn) (ds : Bool) (ry : Option ℚ)
        (i o : Nat),
      timelineRowResolved sc ec ds ry i = (none, none) →
      timelineRowItem sc ec cc rc ds ry i o = none) := by
  refine ⟨?_, ?_, ?_⟩
  · intro pt hpt
    have hitems : (timelineTransform cat).items = [] ∨
        (timelineTransform cat).items = (timelineLoop cat).items := by
      unfold timelineTransform
      by_cases hc : (timelineResolvedColumns cat).1.isEmpty = true ∨
          (timelineResolvedColumns cat).2.isEmpty = true
      · left
        simp only [hc]
        rfl
      · right
        simp only [hc]
        rfl
    rcases hitems with h | h
    · rw [h] at hpt
      simp at hpt
    · rw [h] at hpt
      simp only [timelineLoop] at hpt
      have := (timeline_fold_spec (timelineResolvedColumns cat).1
        (timelineResolvedColumns cat).2
        (getRoleColumns cat "civilization" false true)
        (getRoleColumns cat "region" false true)
        (hasHierarchyHints (timelineResolvedColumns cat).1 ||
          hasHierarchyHints (timelineResolvedColumns cat).2 ||
          isDateLikeColumns (timelineResolvedColumns cat).1 ||
          isDateLikeColumns (timelineResolvedColumns cat).2)
        (if (hasHierarchyHints (timelineResolvedColumns cat).1 ||
              hasHierarchyHints (timelineResolvedColumns cat).2 ||
              isDateLikeColumns (timelineResolvedColumns cat).1 ||
              isDateLikeColumns (timelineResolvedColumns cat).2) then
            (inferReferenceYear ((timelineResolvedColumns cat).1 ++
              (timelineResolvedColumns cat).2)).map (fun y => (y : ℚ))
          else none)
        (List.range (timelineRowCount cat)) ⟨[], [], none, none, none, none, 0⟩
        [] (by simp) (by intro q hq; simp at hq)).2
      exact this pt hpt
  · intro sc ec cc rc ds ry i o s e hres hlt
    unfold timelineRowItem
    rw [hres]
    simp only [if_pos hlt]
  · intro sc ec cc rc ds ry i o hres
    unfold timelineRowItem
    rw [hres]

/-- A start column with one plain-number year for the swap example. -/
def exStartCol : TLColumn :=
  { roles := ["startYear"], displayName := some "Start", queryName := none,
    typeDateTime := false, typeTemporal := false, format := none,
    values := [TLVal.vnum 9] }

/-- An end column with a year below the matching start year. -/
def exEndCol : TLColumn :=
  { roles := ["endYear"], displayName := some "End", queryName := none,
    typeDateTime := false, typeTemporal := false, format := none,
    values := [TLVal.vnum 5] }

theorem timeline_item_ordering_witness :
    timelineRowItem [exStartCol] [exEndCol] [] [] false none 0 0 =
      some (timelineMkPoint [] [] 0 0 5 9) ∧
    timelineRowItem [] [] [] [] false none 0 0 = none := by
  have h := timeline_item_ordering ⟨[], []⟩
  refine ⟨h.2.1 [exStartCol] [exEndCol] [] [] false none 0 0 9 5 ?_
      (by norm_num),
    h.2.2 [] [] [] [] false none 0 0 ?_⟩
  · decide
  · decide

/-- The row loop's emitted item indices form a sublist of the processed
row-index range. -/
theorem timelineLoop_items_sublist (cat : TLCategorical) :
    ((timelineLoop cat).items.map WorldHistoryTimelinePoint.index).Sublist
      (List.range (timelineRowCount cat)) := by
  have h := (timeline_fold_spec (timelineResolvedColumns cat).1
    (timelineResolvedColumns cat).2
    (getRoleColumns cat "civilization" false true)
    (getRoleColumns cat "region" false true)
    (hasHierarchyHints (timelineResolvedColumns cat).1 ||
      hasHierarchyHints (timelineResolvedColumns cat).2 ||
      isDateLikeColumns (timelineResolvedColumns cat).1 ||
      isDateLikeColumns (timelineResolvedColumns cat).2)
    (if (hasHierarchyHints (timelineResolvedColumns cat).1 ||
          hasHierarchyHints (timelineResolvedColumns cat).2 ||
          isDateLikeColumns (timelineResolvedColumns cat).1 ||
          isDateLikeColumns (timelineResolvedColumns cat).2) then
        (inferReferenceYear ((timelineResolvedColumns cat).1 ++
          (timelineResolvedColumns cat).2)).map (fun y => (y : ℚ))
      else none)
    (List.range (timelineRowCount cat)) ⟨[], [], none, none, none, none, 0⟩
    [] (by simp) (by intro q hq; simp at hq)).1
  simp only [timelineLoop]
  simpa using h

/-- C5 (amended): the heatmap transform's data-point indices are the dense
zero-based sequence `0, 1, 2, …`; the timeline transform's item indices
are source row positions, so they are strictly increasing (hence unique
and insertion-ordered) and form a sublist of `range rowCount`, but they
are not dense when a row is dropped. -/
theorem transform_index_sequences (matrix : HeatmapMatrix)
    (settings : Option HeatmapSettingsCard) (cat : TLCategorical) :
    ((heatmapTransformMatrix matrix settings).dataPoints.map DataPoint.index =
      List.range (heatmapTransformMatrix matrix settings).dataPoints.length) ∧
    ((timelineTransform cat).items.map
      WorldHistoryTimelinePoint.index).Sublist
        (List.range (timelineRowCount cat)) ∧
    ((timelineTransform cat).items.map
      WorldHistoryTimelinePoint.index).Pairwise (fun a b => a < b) := by
  have hdp : (heatmapTransformMatrix matrix settings).dataPoints =
      (heatmapEmitted matrix).2.points := rfl
  have hitems : (timelineTransform cat).items = [] ∨
      (timelineTransform cat).items = (timelineLoop cat).items := by
    unfold timelineTransform
    by_cases hc : (timelineResolvedColumns cat).1.isEmpty = true ∨
        (timelineResolvedColumns cat).2.isEmpty = true
    · left
      simp only [hc]
      rfl
    · right
      simp only [hc]
      rfl
  have hsub : ((timelineTransform cat).items.map
      WorldHistoryTimelinePoint.index).Sublist
        (List.range (timelineRowCount cat)) := by
    rcases hitems with h | h
    · rw [h]
      simp
    · rw [h]
      exact timelineLoop_items_sublist cat
  refine ⟨?_, hsub, ?_⟩
  · rw [hdp]
    exact (heatmapEmitted_idx matrix).2
  · exact List.Pairwise.sublist hsub (List.pairwise_lt_range _)

/-- A start-role column whose first row is null, dropping row 0. -/
def exGapCol : TLColumn :=
  { roles := ["startYear"], displayName := some "Level", queryName := none,
    typeDateTime := false, typeTemporal := false, format := none,
    values := [TLVal.vnull, TLVal.vnum 5] }

/-- A categorical whose only column drops its first row. -/
def exGapCat : TLCategorical := { categories := [], values := [exGapCol] }

theorem timeline_index_gap_cx :
    ((timelineTransform exGapCat).items.map
      WorldHistoryTimelinePoint.index) = [1] ∧
    ((timelineTransform exGapCat).items.map
        WorldHistoryTimelinePoint.index) ≠
      List.range (timelineTransform exGapCat).items.length := by
  refine ⟨?_, ?_⟩ <;> decide

/-- With no value columns and no start/end roles among the category
columns, both resolved endpoint column lists are empty. -/
theorem timelineResolvedColumns_empty (cat : TLCategorical)
    (hvals : cat.values = [])
    (hroles : ∀ c ∈ cat.categories,
      "startYear" ∉ c.roles ∧ "endYear" ∉ c.roles) :
    timelineResolvedColumns cat = ([], []) := by
  have h1 : getRoleColumns cat "startYear" true true = [] := by
    unfold getRoleColumns
    rw [hvals]
    simp only [List.filter_nil, if_pos rfl, List.nil_append]
    refine List.filter_eq_nil.mpr ?_
    intro c hc
    simpa using (hroles c hc).1
  have h2 : getRoleColumns cat "endYear" true true = [] := by
    unfold getRoleColumns
    rw [hvals]
    simp only [List.filter_nil, if_pos rfl, List.nil_append]
    refine List.filter_eq_nil.mpr ?_
    intro c hc
    simpa using (hroles c hc).2
  have hfb : ∀ r ex, fallbackValueColumn cat r ex = none := by
    intro r ex
    unfold fallbackValueColumn getValueColumnsByRole
    rw [hvals]
    simp
  simp only [timelineResolvedColumns, h1, h2, hfb]
  simp

/-- C8: a missing matrix root yields the heatmap's explicit empty model
(no points, zero min/max, no groups, zero axis depth), and a categorical
with no value columns and no start/end roles yields the timeline's
explicit empty model, in both cases without failing. -/
theorem empty_input_empty_model (settings : Option HeatmapSettingsCard)
    (cat : TLCategorical) (hvals : cat.values = [])
    (hroles : ∀ c ∈ cat.categories,
      "startYear" ∉ c.roles ∧ "endYear" ∉ c.roles) :
    ((heatmapTransform none settings).dataPoints = [] ∧
      (heatmapTransform none settings).maxValue = 0 ∧
      (heatmapTransform none settings).minValue = 0 ∧
      (heatmapTransform none settings).groups = [] ∧
      (heatmapTransform none settings).xAxis.depth = 0) ∧
    ((timelineTransform cat).dataPoints = [] ∧
      (timelineTransform cat).items = [] ∧
      (timelineTransform cat).maxValue = 0 ∧
      (timelineTransform cat).minValue = 0 ∧
      (timelineTransform cat).groups = []) := by
  have hcols := timelineResolvedColumns_empty cat hvals hroles
  refine ⟨⟨rfl, rfl, rfl, rfl, rfl⟩, ?_⟩
  simp only [timelineTransform, hcols]
  refine ⟨rfl, rfl, rfl, rfl, rfl⟩

theorem empty_input_empty_model_witness :
    (heatmapTransform none none).dataPoints = [] ∧
    (heatmapTransform none none).xAxis.depth = 0 ∧
    (timelineTransform ⟨[], []⟩).items = [] ∧
    (timelineTransform ⟨[], []⟩).groups = [] := by
  have h := empty_input_empty_model none ⟨[], []⟩ rfl
    (by intro c hc; simp at hc)
  exact ⟨h.1.1, h.1.2.2.2.2, h.2.2.1, h.2.2.2.2.2⟩
